import Mathlib

/-!
Shallow embedding of the zyncoder input-event core (src/zyncoder.c) and
verification of the spec claims about it.

The embedding follows the MCP23017 build for the encoder/switch state
machines (the variant whose lines the claims cite: `update_zyncoder(i, MSB,
LSB)`, `update_zynswitch(i, status)`), and the UART build for the serial
frame parser and the bulk switch scan (`uart_thread`, `update_zynswitches`,
`insertInBuffer`, `getBufferData`, `checkFraming`, `flushBuffer`) and the
MCP23008 build for `update_expanded_zynswitches`.

C `unsigned int` / `unsigned long` fields are modelled as `Nat`; wraparound
of unsigned subtraction and of narrowing assignments is made explicit with
`usub32` / `dtus32` at the places the C code can underflow or truncate.
Hardware and library side effects (`pinMode`, `wiringPiISR`, `lo_send`,
`internal_send_*`, `write_zynmidi_*`, `serialFlush`) are modelled as an
explicit trace of `Emission` values / boolean flags returned by each
operation.
-/

namespace Zyn

/-- Modelled from the spec: `MAX_NUM_ZYNCODERS` comes from zyncoder.h, which
is not under src/; the spec fixes only that it is a small compile-time
capacity constant. -/
def MAX_NUM_ZYNCODERS : Nat := 4

/-- Modelled from the spec: `MAX_NUM_ZYNSWITCHES` comes from zyncoder.h
(not under src/); a small compile-time capacity constant. -/
def MAX_NUM_ZYNSWITCHES : Nat := 8

/-- Modelled from the spec: `ZYNCODER_TICKS_PER_RETENT` comes from
zyncoder.h (not under src/); the spec's velocity-burst scenario uses 4. -/
def ZYNCODER_TICKS_PER_RETENT : Nat := 4

/-- C 32-bit unsigned subtraction `a - b` for operands `a, b < 2^32`:
the wraparound of `unsigned int` arithmetic made explicit. -/
def usub32 (a b : Nat) : Nat := (4294967296 + a - b) % 4294967296

/-- The C idiom `unsigned int dtus = tsus_now - tsus_old` where both
timestamps are `unsigned long` (64-bit): 64-bit subtraction truncated by the
narrowing assignment to 32 bits. -/
def dtus32 (now tsus : Nat) : Nat :=
  ((18446744073709551616 + now - tsus) % 18446744073709551616) % 4294967296

/-- Array write `arr[i] = v` on a `Nat`-indexed total map. -/
def updArr {α : Type} (s : Nat → α) (i : Nat) (v : α) : Nat → α :=
  fun j => if j = i then v else s j

/-- One externally visible sink call.  `iCC`/`iNoteOn`/`iNoteOff`/`iProg`
are the `internal_send_*` engine sinks, `uiCC`/`uiNoteOn`/`uiNoteOff`/
`uiProg` the `write_zynmidi_*` UI sinks, `oscT`/`oscF`/`oscInt` the
`lo_send` OSC sinks. -/
inductive Emission where
  | iCC (chan num val : Nat)
  | uiCC (chan num val : Nat)
  | iNoteOn (chan num val : Nat)
  | uiNoteOn (chan num val : Nat)
  | iNoteOff (chan num val : Nat)
  | uiNoteOff (chan num val : Nat)
  | iProg (chan num : Nat)
  | uiProg (chan num : Nat)
  | oscT
  | oscF
  | oscInt (val : Nat)
  deriving DecidableEq, Repr

/-- `struct zyncoder_st` (declared in zyncoder.h, fields as used by
src/zyncoder.c).  `osc_valid` abbreviates the C condition
`osc_lo_addr != NULL && osc_path[0]` (the OSC binding being active); the
string/socket plumbing itself is external library state. -/
structure zyncoder_st where
  enabled : Bool
  pin_a : Nat
  pin_b : Nat
  last_encoded : Nat
  value : Nat
  subvalue : Nat
  max_value : Nat
  step : Nat
  dtus : List Nat
  tsus : Nat
  midi_chan : Nat
  midi_ctrl : Nat
  osc_valid : Bool
  deriving DecidableEq, Repr

/-- A disabled all-zero encoder slot (state after `init_zyncoder`). -/
def zyncoder0 : zyncoder_st :=
  { enabled := false, pin_a := 0, pin_b := 0, last_encoded := 0, value := 0,
    subvalue := 0, max_value := 0, step := 0,
    dtus := List.replicate ZYNCODER_TICKS_PER_RETENT 0, tsus := 0,
    midi_chan := 0, midi_ctrl := 0, osc_valid := false }

/-- Line 602: `up = (sum == 0b1101 || sum == 0b0100 || sum == 0b0010 ||
sum == 0b1011)`. -/
def quadUp (sum : Nat) : Bool :=
  sum == 0b1101 || sum == 0b0100 || sum == 0b0010 || sum == 0b1011

/-- Lines 603-604: `down = 0; if (!up) down = (sum == 0b1110 ||
sum == 0b0111 || sum == 0b0001 || sum == 0b1000)`. -/
def quadDown (sum : Nat) : Bool :=
  !quadUp sum &&
    (sum == 0b1110 || sum == 0b0111 || sum == 0b0001 || sum == 0b1000)

/-- `send_zyncoder` (lines 556-580), as the list of sink emissions it
performs.  The per-index bounds/enabled guards are kept in the array-level
wrapper and the `enabled` guard here. -/
def send_zyncoder_ems (z : zyncoder_st) : List Emission :=
  if z.enabled = false then []
  else if z.midi_ctrl > 0 then [.iCC z.midi_chan z.midi_ctrl z.value]
  else if z.osc_valid then
    if z.step ≥ 8 then
      if z.value ≥ 64 then [.oscT] else [.oscF]
    else [.oscInt z.value]
  else []

/-- The velocity step size of lines 630-642: the average of the incoming
`dtus` and the ring of the last `ZYNCODER_TICKS_PER_RETENT` intervals
(`unsigned int` accumulation), turned into a step clamped to
`[1, 2*ZYNCODER_TICKS_PER_RETENT]`. -/
def dsval_of (z1 : zyncoder_st) (dtus : Nat) : Nat :=
  let dtus_avg := ((dtus + z1.dtus.sum) % 4294967296) /
                    (ZYNCODER_TICKS_PER_RETENT + 1)
  let d := 10000 * ZYNCODER_TICKS_PER_RETENT / dtus_avg
  if d < 1 then 1
  else if d > 2 * ZYNCODER_TICKS_PER_RETENT then 2 * ZYNCODER_TICKS_PER_RETENT
  else d

/-- The Up branch of velocity mode (lines 645-649 plus the `tsus` store and
conditional `send_zyncoder` of lines 656-661): saturating `subvalue`
advance by `dsval`, `value` rederived by integer division. -/
def vel_up_apply (z2 : zyncoder_st) (dsval now : Nat) :
    zyncoder_st × List Emission :=
  let z3 := if dsval ≤ usub32 z2.max_value z2.subvalue
            then { z2 with subvalue := (z2.subvalue + dsval) % 4294967296 }
            else { z2 with subvalue := z2.max_value }
  let v := z3.subvalue / ZYNCODER_TICKS_PER_RETENT
  let z4 := { z3 with tsus := now }
  if z4.value ≠ v then
    ({ z4 with value := v }, send_zyncoder_ems { z4 with value := v })
  else (z4, [])

/-- The Down branch of velocity mode (lines 650-654 plus the `tsus` store
and conditional `send_zyncoder`): flooring `subvalue` decrease by `dsval`,
`value` rederived by ceiling division. -/
def vel_down_apply (z2 : zyncoder_st) (dsval now : Nat) :
    zyncoder_st × List Emission :=
  let z3 := if dsval ≤ z2.subvalue
            then { z2 with subvalue := z2.subvalue - dsval }
            else { z2 with subvalue := 0 }
  let v := (z3.subvalue + ZYNCODER_TICKS_PER_RETENT - 1) /
             ZYNCODER_TICKS_PER_RETENT
  let z4 := { z3 with tsus := now }
  if z4.value ≠ v then
    ({ z4 with value := v }, send_zyncoder_ems { z4 with value := v })
  else (z4, [])

/-- Fixed-step mode (lines 663-669): clamp `value` to `max_value`, advance
by `step` only when the whole step fits, emit on change.  No debounce and
no timestamp bookkeeping in this mode. -/
def fixed_apply (z1 : zyncoder_st) (up down : Bool) :
    zyncoder_st × List Emission :=
  let last_value := z1.value
  let z2 := if z1.max_value < z1.value then { z1 with value := z1.max_value }
            else z1
  let z3 := if z2.step ≤ usub32 z2.max_value z2.value ∧ up = true
            then { z2 with value := (z2.value + z2.step) % 4294967296 }
            else if z2.step ≤ z2.value ∧ down = true
            then { z2 with value := z2.value - z2.step }
            else z2
  if last_value ≠ z3.value then (z3, send_zyncoder_ems z3) else (z3, [])

/-- `update_zyncoder(i, MSB, LSB)` (lines 589-671, MCP23017 variant), for a
single encoder record: the index bound check lives in the array wrapper
below.  `now` is the `CLOCK_MONOTONIC` microsecond timestamp the C code
reads inside the function.  Returns the new record and the emission trace
of the embedded `send_zyncoder` call. -/
def update_zyncoder_core (z0 : zyncoder_st) (msb lsb now : Nat) :
    zyncoder_st × List Emission :=
  if z0.enabled = false then (z0, [])
  else
    let encoded := (msb <<< 1) ||| lsb
    let sum := (z0.last_encoded <<< 2) ||| encoded
    let up := quadUp sum
    let down := quadDown sum
    -- line 606: last_encoded is stored before any debounce check
    let z1 := { z0 with last_encoded := encoded }
    if z1.step = 0 then
      -- velocity mode, lines 619-661
      let dtus := dtus32 now z1.tsus
      if dtus < 1000 then (z1, [])
      else
        let dsval := dsval_of z1 dtus
        -- shift the fifo ring: drop oldest, append current (lines 636-638)
        let z2 := { z1 with dtus := z1.dtus.tail ++ [dtus] }
        if up then vel_up_apply z2 dsval now
        else if down then vel_down_apply z2 dsval now
        else ({ z2 with tsus := now }, [])
    else fixed_apply z1 up down

/-- Array-level `update_zyncoder` (lines 589-593 for the guards). -/
def update_zyncoder (s : Nat → zyncoder_st) (i msb lsb now : Nat) :
    (Nat → zyncoder_st) × List Emission :=
  if i ≥ MAX_NUM_ZYNCODERS then (s, [])
  else
    let r := update_zyncoder_core (s i) msb lsb now
    (updArr s i r.1, r.2)

/-- `setup_zyncoder` body for the record at index `i` (lines 702-760).
`osc_port` stands for the result of the C code's `strtok`/`atoi` parse of
`osc_path` (`none` for a NULL path); the GPIO/ISR registration calls are
hardware side effects with no bearing on the record.  The multiplications
in the velocity branch are `unsigned int` products, hence the mod. -/
def setup_zyncoder_core (z : zyncoder_st) (pin_a pin_b midi_chan midi_ctrl : Nat)
    (osc_port : Option Nat) (value max_value stepv : Nat) : zyncoder_st :=
  let midi_chan := if midi_chan > 15 then 0 else midi_chan
  let midi_ctrl := if midi_ctrl > 127 then 1 else midi_ctrl
  let z := { z with midi_chan := midi_chan, midi_ctrl := midi_ctrl }
  let z := match osc_port with
    | some p => if p > 0 then { z with osc_valid := true }
                else { z with osc_valid := false }
    | none => { z with osc_valid := false }
  let value := if value > max_value then max_value else value
  let z := { z with step := stepv }
  let z := if stepv > 0 then
             { z with value := value, subvalue := 0, max_value := max_value }
           else
             { z with value := value,
                      subvalue := (ZYNCODER_TICKS_PER_RETENT * value) % 4294967296,
                      max_value := (ZYNCODER_TICKS_PER_RETENT * max_value) % 4294967296 }
  if z.enabled = false ∨ z.pin_a ≠ pin_a ∨ z.pin_b ≠ pin_b then
    { z with enabled := true, pin_a := pin_a, pin_b := pin_b,
             last_encoded := 0, tsus := 0 }
  else z

/-- `setup_zyncoder` (lines 696-763).  NOTE the guard is `i >
MAX_NUM_ZYNCODERS`, exactly as written at line 697 — not `>=`.  The C
function returns a pointer to the written record or NULL. -/
def setup_zyncoder (s : Nat → zyncoder_st) (i pin_a pin_b midi_chan midi_ctrl : Nat)
    (osc_port : Option Nat) (value max_value stepv : Nat) :
    Option zyncoder_st × (Nat → zyncoder_st) :=
  if i > MAX_NUM_ZYNCODERS then (none, s)
  else
    let z := setup_zyncoder_core (s i) pin_a pin_b midi_chan midi_ctrl
               osc_port value max_value stepv
    (some z, updArr s i z)

/-- `get_value_zyncoder` (lines 765-768). -/
def get_value_zyncoder (s : Nat → zyncoder_st) (i : Nat) : Nat :=
  if i ≥ MAX_NUM_ZYNCODERS then 0 else (s i).value

/-- `set_value_zyncoder` (lines 770-786).  The velocity-mode `v *=
ZYNCODER_TICKS_PER_RETENT` is an `unsigned int` product. -/
def set_value_zyncoder (s : Nat → zyncoder_st) (i v : Nat) (send : Bool) :
    (Nat → zyncoder_st) × List Emission :=
  if i ≥ MAX_NUM_ZYNCODERS then (s, [])
  else
    let z := s i
    if z.enabled = false then (s, [])
    else
      let z :=
        if z.step = 0 then
          let v := (v * ZYNCODER_TICKS_PER_RETENT) % 4294967296
          let z := if v > z.max_value then { z with subvalue := z.max_value }
                   else { z with subvalue := v }
          { z with value := z.subvalue / ZYNCODER_TICKS_PER_RETENT }
        else
          if v > z.max_value then { z with value := z.max_value }
          else { z with value := v }
      (updArr s i z, if send then send_zyncoder_ems z else [])

/-- `midi_event_zyncoders` (lines 544-554): for every enabled encoder bound
to `(midi_chan, midi_ctrl)` it stores `value = val` and `subvalue = val *
ZYNCODER_TICKS_PER_RETENT` (val is a `uint8_t`, so the `int` product never
wraps).  The function makes no sink calls, hence the empty trace. -/
def midi_event_zyncoders (s : Nat → zyncoder_st) (midi_chan midi_ctrl val : Nat) :
    (Nat → zyncoder_st) × List Emission :=
  (fun j =>
    if j < MAX_NUM_ZYNCODERS ∧ (s j).enabled = true ∧
        (s j).midi_chan = midi_chan ∧ (s j).midi_ctrl = midi_ctrl then
      { s j with value := val, subvalue := val * ZYNCODER_TICKS_PER_RETENT }
    else s j, [])

/-- `enum midi_event_type_enum` (zyncoder.h; constructors as used by
src/zyncoder.c). -/
inductive midi_event_type_enum where
  | NONE_EVENT
  | CTRL_CHANGE
  | NOTE_ON
  | PROG_CHANGE
  | CVGATE_IN_EVENT
  | CVGATE_OUT_EVENT
  deriving DecidableEq, Repr

/-- `struct zynswitch_st` (zyncoder.h, fields as used by src/zyncoder.c);
the nested `midi_event` struct is flattened into `midi_event_*` fields. -/
structure zynswitch_st where
  enabled : Bool
  pin : Nat
  status : Nat
  tsus : Nat
  dtus : Nat
  midi_event_type : midi_event_type_enum
  midi_event_chan : Nat
  midi_event_num : Nat
  midi_event_val : Nat
  last_cvgate_note : Int
  deriving DecidableEq, Repr

/-- A disabled all-zero switch slot (state after `init_zyncoder`). -/
def zynswitch0 : zynswitch_st :=
  { enabled := false, pin := 0, status := 0, tsus := 0, dtus := 0,
    midi_event_type := .NONE_EVENT, midi_event_chan := 0, midi_event_num := 0,
    midi_event_val := 0, last_cvgate_note := 0 }

/-- `send_zynswitch_midi` (lines 281-344, built without ZYNAPTIK_CONFIG so
the CVGATE_IN branch is compiled out).  The CTRL_CHANGE branch also calls
`midi_event_zyncoders`, so the encoder array is threaded through. -/
def send_zynswitch_midi (encs : Nat → zyncoder_st) (sw : zynswitch_st)
    (status : Nat) : (Nat → zyncoder_st) × List Emission :=
  match sw.midi_event_type with
  | .CTRL_CHANGE =>
    let val := if status = 0 then sw.midi_event_val else 0
    ((midi_event_zyncoders encs sw.midi_event_chan sw.midi_event_num val).1,
     [.iCC sw.midi_event_chan sw.midi_event_num val,
      .uiCC sw.midi_event_chan sw.midi_event_num val])
  | .NOTE_ON =>
    if status = 0 then
      (encs, [.iNoteOn sw.midi_event_chan sw.midi_event_num sw.midi_event_val,
              .uiNoteOn sw.midi_event_chan sw.midi_event_num sw.midi_event_val])
    else
      (encs, [.iNoteOff sw.midi_event_chan sw.midi_event_num 0,
              .uiNoteOff sw.midi_event_chan sw.midi_event_num 0])
  | .PROG_CHANGE =>
    if status = 0 then
      (encs, [.iProg sw.midi_event_chan sw.midi_event_num,
              .uiProg sw.midi_event_chan sw.midi_event_num])
    else (encs, [])
  | _ => (encs, [])

/-- `update_zynswitch(i, status)` (lines 352-381, MCP23017 variant) for a
single switch record; `now` is the `CLOCK_MONOTONIC` microsecond timestamp
read inside the function.  Returns the updated encoder array (through the
`send_zynswitch_midi` CTRL_CHANGE path), the updated switch, and the
emission trace. -/
def update_zynswitch_core (encs : Nat → zyncoder_st) (sw : zynswitch_st)
    (status now : Nat) :
    (Nat → zyncoder_st) × zynswitch_st × List Emission :=
  if sw.enabled = false then (encs, sw, [])
  else if status = sw.status then (encs, sw, [])
  else
    let sw := { sw with status := status }
    let r := send_zynswitch_midi encs sw status
    if sw.status = 1 then
      if sw.tsus > 0 then
        let dtus := dtus32 now sw.tsus
        let sw := { sw with tsus := 0 }
        -- ignore spurious ticks: line 376 returns before dtus is stored
        if dtus < 1000 then (r.1, sw, r.2)
        else (r.1, { sw with dtus := dtus }, r.2)
      else (r.1, sw, r.2)
    else (r.1, { sw with tsus := now }, r.2)

/-- Array-level `update_zynswitch` (lines 352-356 for the guards). -/
def update_zynswitch (encs : Nat → zyncoder_st) (sws : Nat → zynswitch_st)
    (i status now : Nat) :
    (Nat → zyncoder_st) × (Nat → zynswitch_st) × List Emission :=
  if i ≥ MAX_NUM_ZYNSWITCHES then (encs, sws, [])
  else
    let r := update_zynswitch_core encs (sws i) status now
    (r.1, updArr sws i r.2.1, r.2.2)

/-- `setup_zynswitch` (lines 457-489); the GPIO/ISR registration is a
hardware side effect.  Returns the written record or NULL. -/
def setup_zynswitch (sws : Nat → zynswitch_st) (i pin : Nat) :
    Option zynswitch_st × (Nat → zynswitch_st) :=
  if i ≥ MAX_NUM_ZYNSWITCHES then (none, sws)
  else
    let sw := { sws i with enabled := true, pin := pin, tsus := 0, dtus := 0,
                           status := 0 }
    (some sw, updArr sws i sw)

/-- `setup_zynswitch_midi` (lines 491-514, without ZYNAPTIK_CONFIG).
Returns the C success flag (1) or 0 on the bounds failure. -/
def setup_zynswitch_midi (sws : Nat → zynswitch_st) (i : Nat)
    (midi_evt : midi_event_type_enum) (midi_chan midi_num midi_val : Nat) :
    Nat × (Nat → zynswitch_st) :=
  if i ≥ MAX_NUM_ZYNSWITCHES then (0, sws)
  else
    (1, updArr sws i
      { sws i with midi_event_type := midi_evt, midi_event_chan := midi_chan,
                   midi_event_num := midi_num, midi_event_val := midi_val,
                   last_cvgate_note := -1 })

/-- `get_zynswitch_dtus` (lines 516-534); `now` is the monotonic timestamp
read in the long-press branch.  Returns the reported duration and the
updated array. -/
def get_zynswitch_dtus (sws : Nat → zynswitch_st) (i long_dtus now : Nat) :
    Nat × (Nat → zynswitch_st) :=
  if i ≥ MAX_NUM_ZYNSWITCHES then (0, sws)
  else
    let dtus := (sws i).dtus
    if dtus > 0 then
      (dtus, updArr sws i { sws i with dtus := 0 })
    else if (sws i).tsus > 0 then
      let dtus := dtus32 now (sws i).tsus
      if dtus > long_dtus then
        (dtus, updArr sws i { sws i with tsus := 0 })
      else (0, sws)
    else (0, sws)

/-- `bitRead`-style payload bit extraction used by the UART variant
(lines 609-610 and 876): `(data[pin/8] >> (pin%8)) & 0x1`. -/
def bitRead8 (data : List Nat) (pin : Nat) : Nat :=
  (data.getD (pin / 8) 0 >>> (pin % 8)) &&& 1

/-- The combined encoder/switch arrays the bulk switch scans act on. -/
abbrev ScanState := (Nat → zyncoder_st) × (Nat → zynswitch_st)

/-- A C `for` loop over switch indices whose body may `return` out of the
whole function: folds `f` over the index list, stopping when the step
reports `true` in its third component, and concatenating emission traces. -/
def scan_zynswitches (f : ScanState → Nat → ScanState × List Emission × Bool)
    (st : ScanState) : List Nat → ScanState × List Emission × Bool
  | [] => (st, [], false)
  | i :: rest =>
    let r := f st i
    if r.2.2 then (r.1, r.2.1, true)
    else
      let r2 := scan_zynswitches f r.1 rest
      (r2.1, r.2.1 ++ r2.2.1, r2.2.2)

/-- Loop body of the UART `update_zynswitches` (lines 872-892) for index
`i`: reads the switch level from the payload bitmap; UART polarity treats a
transition to `status == 0` as the release edge.  The third component is
`true` exactly when the body executes the early `return` of line 887. -/
def uart_switch_step (d : List Nat) (now : Nat) (st : ScanState) (i : Nat) :
    ScanState × List Emission × Bool :=
  let sw := st.2 i
  if sw.enabled = false then (st, [], false)
  else
    let status := bitRead8 d sw.pin
    if status = sw.status then (st, [], false)
    else
      let sw := { sw with status := status }
      let r := send_zynswitch_midi st.1 sw status
      if sw.status = 0 then
        if sw.tsus > 0 then
          let dtus := dtus32 now sw.tsus
          let sw := { sw with tsus := 0 }
          if dtus < 1000 then ((r.1, updArr st.2 i sw), r.2, true)
          else ((r.1, updArr st.2 i { sw with dtus := dtus }), r.2, false)
        else ((r.1, updArr st.2 i sw), r.2, false)
      else ((r.1, updArr st.2 i { sw with tsus := now }), r.2, false)

/-- UART `update_zynswitches(data)` (lines 865-893). -/
def update_zynswitches (encs : Nat → zyncoder_st) (sws : Nat → zynswitch_st)
    (d : List Nat) (now : Nat) : ScanState × List Emission × Bool :=
  scan_zynswitches (uart_switch_step d now) (encs, sws)
    (List.range MAX_NUM_ZYNSWITCHES)

/-- Loop body of `update_expanded_zynswitches` (lines 404-432, MCP23008
variant) for index `i`: `pins` models `digitalRead` of the port-expander
levels; only enabled switches with `pin >= 100` participate, and a
transition to `status == 1` is the release edge.  The third component is
`true` exactly when the body executes the early `return` of line 426. -/
def expanded_switch_step (pins : Nat → Nat) (now : Nat) (st : ScanState)
    (i : Nat) : ScanState × List Emission × Bool :=
  let sw := st.2 i
  if sw.enabled = false ∨ sw.pin < 100 then (st, [], false)
  else
    let status := pins sw.pin
    if status = sw.status then (st, [], false)
    else
      let sw := { sw with status := status }
      let r := send_zynswitch_midi st.1 sw status
      if sw.status = 1 then
        if sw.tsus > 0 then
          let dtus := dtus32 now sw.tsus
          let sw := { sw with tsus := 0 }
          if dtus < 1000 then ((r.1, updArr st.2 i sw), r.2, true)
          else ((r.1, updArr st.2 i { sw with dtus := dtus }), r.2, false)
        else ((r.1, updArr st.2 i sw), r.2, false)
      else ((r.1, updArr st.2 i { sw with tsus := now }), r.2, false)

/-- `update_expanded_zynswitches()` (lines 404-432). -/
def update_expanded_zynswitches (encs : Nat → zyncoder_st)
    (sws : Nat → zynswitch_st) (pins : Nat → Nat) (now : Nat) :
    ScanState × List Emission × Bool :=
  scan_zynswitches (expanded_switch_step pins now) (encs, sws)
    (List.range MAX_NUM_ZYNSWITCHES)

/-! ### UART frame reception (lines 78-100 and 895-1036) -/

def PAYLOAD_SIZE_BYTES : Nat := 2
def BUFFER_SIZE_BYTES : Nat := PAYLOAD_SIZE_BYTES + 2
def START_FRAME_VALUE : Nat := 0xEA
def END_FRAME_VALUE : Nat := 0xFB

/-- The circular receive buffer globals (lines 94-95). -/
structure UartBuf where
  buffer : List Nat
  head : Nat
  prev_head : Nat
  tail : Nat
  elementsInBuffer : Nat
  deriving DecidableEq, Repr

/-- `flushBuffer()` (lines 1008-1019). -/
def flushBuffer : UartBuf :=
  { buffer := List.replicate BUFFER_SIZE_BYTES 0, head := 0, prev_head := 0,
    tail := 0, elementsInBuffer := 0 }

/-- `insertInBuffer(element)` (lines 955-977). -/
def insertInBuffer (s : UartBuf) (element : Nat) : UartBuf :=
  let prev_head := s.head
  let buffer := s.buffer.set s.head element
  let head := s.head + 1
  let head := if head ≥ BUFFER_SIZE_BYTES then 0 else head
  if s.elementsInBuffer ≥ BUFFER_SIZE_BYTES then
    let tail := s.tail + 1
    let tail := if tail ≥ BUFFER_SIZE_BYTES then 0 else tail
    { buffer := buffer, head := head, prev_head := prev_head, tail := tail,
      elementsInBuffer := s.elementsInBuffer }
  else
    { buffer := buffer, head := head, prev_head := prev_head, tail := s.tail,
      elementsInBuffer := s.elementsInBuffer + 1 }

/-- `checkFraming(startByte, endByte, fd)` (lines 1021-1036).  Returns the
framing flag, the (possibly flushed) buffer, and whether `serialFlush(fd)`
was called. -/
def checkFraming (s : UartBuf) (startByte endByte : Nat) :
    Bool × UartBuf × Bool :=
  if s.buffer.getD s.tail 0 = startByte ∧ s.buffer.getD s.prev_head 0 = endByte ∧
      s.elementsInBuffer ≥ BUFFER_SIZE_BYTES then
    (true, s, false)
  else if s.elementsInBuffer ≥ BUFFER_SIZE_BYTES then (false, flushBuffer, true)
  else (false, s, false)

/-- The payload byte the `getBufferData` loop reads at offset `cnt`
(lines 984-1002): index `head+cnt+1`, wrapped by `BUFFER_SIZE_BYTES`. -/
def payloadByte (s : UartBuf) (cnt : Nat) : Nat :=
  if s.head + cnt + 1 ≥ BUFFER_SIZE_BYTES then
    s.buffer.getD (s.head + cnt + 1 - BUFFER_SIZE_BYTES) 0
  else s.buffer.getD (s.head + cnt + 1) 0

/-- The reserved-byte test of `getBufferData` (a payload byte may not be
`0xEA`, `0xFB` or `0xFF`). -/
def isReserved (b : Nat) : Bool :=
  b == START_FRAME_VALUE || b == END_FRAME_VALUE || b == 0xFF

/-- `getBufferData(pBuffer)` (lines 979-1006), with its
`PAYLOAD_SIZE_BYTES = 2` loop unrolled: `none` when the C function returns
1 (corrupt payload), otherwise the extracted payload bytes. -/
def getBufferData (s : UartBuf) : Option (List Nat) :=
  if isReserved (payloadByte s 0) then none
  else if isReserved (payloadByte s 1) then none
  else some [payloadByte s 0, payloadByte s 1]

/-- What one iteration of the `uart_thread` loop (lines 908-939) does with
the received frame, if any. -/
inductive UartOutcome where
  /-- A valid frame was parsed: `update_zyncoder(i, payload)` runs for
  every encoder and `update_zynswitches(payload)` for the switches. -/
  | processed (payload : List Nat)
  /-- `getBufferData` reported a corrupt payload: only the diagnostic
  printf runs. -/
  | corruptFrame
  /-- No complete frame in the buffer yet. -/
  | noFrame
  deriving DecidableEq, Repr

/-- One iteration of the `uart_thread` receive loop (lines 910-936): insert
the byte, check framing, extract the payload.  Returns the new buffer
state, the outcome, and whether `serialFlush` was called in this
iteration. -/
def uart_step (s : UartBuf) (byte : Nat) : UartBuf × UartOutcome × Bool :=
  let s1 := insertInBuffer s byte
  let r := checkFraming s1 START_FRAME_VALUE END_FRAME_VALUE
  if r.1 then
    match getBufferData r.2.1 with
    | some payload => (flushBuffer, .processed payload, r.2.2)
    | none => (r.2.1, .corruptFrame, r.2.2)
  else (r.2.1, .noFrame, r.2.2)

/-! ### Derived notions used by the claim statements -/

/-- The claimed bound invariant of an encoder record, on the stored fields:
`value` never exceeds `max_value`, and in velocity mode neither does
`subvalue` (the velocity accumulator the value is derived from). -/
def zyn_inv (z : zyncoder_st) : Prop :=
  z.value ≤ z.max_value ∧ (z.step ≠ 0 ∨ z.subvalue ≤ z.max_value)

instance (z : zyncoder_st) : Decidable (zyn_inv z) := by
  unfold zyn_inv; infer_instance

/-- The claimed switch invariant: a stored press duration is either absent
(0) or at least the 1000 µs debounce threshold. -/
def sw_inv (sw : zynswitch_st) : Prop := sw.dtus = 0 ∨ 1000 ≤ sw.dtus

instance (sw : zynswitch_st) : Decidable (sw_inv sw) := by
  unfold sw_inv; infer_instance

/-- One quadrature observation delivered to `update_zyncoder`: the two pin
levels and the monotonic microsecond timestamp at which it is processed. -/
structure Tick where
  msb : Nat
  lsb : Nat
  now : Nat
  deriving DecidableEq, Repr

/-- The 4-bit quadrature word `sum` the observation produces from the
stored `last_encoded` (line 600-601). -/
def tickSum (z : zyncoder_st) (t : Tick) : Nat :=
  (z.last_encoded <<< 2) ||| ((t.msb <<< 1) ||| t.lsb)

/-- Feed a sequence of observations to one encoder, discarding the
emission traces. -/
def applyTicks (z : zyncoder_st) : List Tick → zyncoder_st
  | [] => z
  | t :: ts => applyTicks (update_zyncoder_core z t.msb t.lsb t.now).1 ts

/-- Every observation in the list is classified Up and passes the 1000 µs
debounce threshold at the state it reaches. -/
def upAccScript (z : zyncoder_st) : List Tick → Bool
  | [] => true
  | t :: ts =>
    quadUp (tickSum z t) && decide (1000 ≤ dtus32 t.now z.tsus) &&
      upAccScript (update_zyncoder_core z t.msb t.lsb t.now).1 ts

/-- Every observation in the list is classified Down and passes the
1000 µs debounce threshold at the state it reaches. -/
def downAccScript (z : zyncoder_st) : List Tick → Bool
  | [] => true
  | t :: ts =>
    quadDown (tickSum z t) && decide (1000 ≤ dtus32 t.now z.tsus) &&
      downAccScript (update_zyncoder_core z t.msb t.lsb t.now).1 ts

/-- The exact condition under which the UART `update_zynswitches` loop body
executes its early `return` (line 887) for a switch in state `sw`: an
enabled switch sees a level change to 0 (the UART release edge) with a
press in progress whose measured duration is below 1000 µs. -/
def uart_stop_cond (sw : zynswitch_st) (d : List Nat) (now : Nat) : Bool :=
  sw.enabled && decide (bitRead8 d sw.pin ≠ sw.status) &&
    (bitRead8 d sw.pin == 0) && decide (0 < sw.tsus) &&
    decide (dtus32 now sw.tsus < 1000)

/-- The exact condition under which the `update_expanded_zynswitches` loop
body executes its early `return` (line 426) for a switch in state `sw`: an
enabled port-expander switch (pin ≥ 100) sees a level change to 1 (the
native release edge) with a press in progress whose measured duration is
below 1000 µs. -/
def exp_stop_cond (sw : zynswitch_st) (pins : Nat → Nat) (now : Nat) : Bool :=
  sw.enabled && decide (100 ≤ sw.pin) && decide (pins sw.pin ≠ sw.status) &&
    (pins sw.pin == 1) && decide (0 < sw.tsus) &&
    decide (dtus32 now sw.tsus < 1000)

/-! ### Arithmetic helpers -/

theorem usub32_eq_sub (a b : Nat) (hb : b ≤ a) (ha : a < 4294967296) :
    usub32 a b = a - b := by
  unfold usub32; omega

theorem dtus32_eq_sub (now tsus : Nat) (h : tsus ≤ now)
    (h2 : now - tsus < 4294967296) : dtus32 now tsus = now - tsus := by
  unfold dtus32; omega

theorem dsval_of_pos (z : zyncoder_st) (dtus : Nat) : 1 ≤ dsval_of z dtus := by
  unfold dsval_of ZYNCODER_TICKS_PER_RETENT
  dsimp only
  split_ifs <;> omega

/-! ### Characterizations of `update_zyncoder_core` -/

/-- Velocity mode, debounced tick (`dtus < 1000`, line 628): the only state
change is the `last_encoded` store of line 606, and nothing is emitted. -/
theorem vel_debounced (z : zyncoder_st) (m l now : Nat)
    (he : z.enabled = true) (hs : z.step = 0)
    (hd : dtus32 now z.tsus < 1000) :
    update_zyncoder_core z m l now =
      ({ z with last_encoded := (m <<< 1) ||| l }, []) := by
  unfold update_zyncoder_core
  simp [he, hs, hd]

/-- The mode/binding fields are untouched by the velocity Up branch. -/
theorem vel_up_apply_fields (z2 : zyncoder_st) (dsval now : Nat) :
    (vel_up_apply z2 dsval now).1.enabled = z2.enabled ∧
    (vel_up_apply z2 dsval now).1.step = z2.step ∧
    (vel_up_apply z2 dsval now).1.max_value = z2.max_value ∧
    (vel_up_apply z2 dsval now).1.midi_chan = z2.midi_chan ∧
    (vel_up_apply z2 dsval now).1.midi_ctrl = z2.midi_ctrl ∧
    (vel_up_apply z2 dsval now).1.last_encoded = z2.last_encoded := by
  unfold vel_up_apply
  dsimp only
  split_ifs <;> simp

/-- The mode/binding fields are untouched by the velocity Down branch. -/
theorem vel_down_apply_fields (z2 : zyncoder_st) (dsval now : Nat) :
    (vel_down_apply z2 dsval now).1.enabled = z2.enabled ∧
    (vel_down_apply z2 dsval now).1.step = z2.step ∧
    (vel_down_apply z2 dsval now).1.max_value = z2.max_value ∧
    (vel_down_apply z2 dsval now).1.midi_chan = z2.midi_chan ∧
    (vel_down_apply z2 dsval now).1.midi_ctrl = z2.midi_ctrl ∧
    (vel_down_apply z2 dsval now).1.last_encoded = z2.last_encoded := by
  unfold vel_down_apply
  dsimp only
  split_ifs <;> simp

/-- The mode/binding fields are untouched by the fixed-step branch, which
also never touches `subvalue`, `tsus` or the ring. -/
theorem fixed_apply_fields (z1 : zyncoder_st) (up down : Bool) :
    (fixed_apply z1 up down).1.enabled = z1.enabled ∧
    (fixed_apply z1 up down).1.step = z1.step ∧
    (fixed_apply z1 up down).1.max_value = z1.max_value ∧
    (fixed_apply z1 up down).1.midi_chan = z1.midi_chan ∧
    (fixed_apply z1 up down).1.midi_ctrl = z1.midi_ctrl ∧
    (fixed_apply z1 up down).1.subvalue = z1.subvalue ∧
    (fixed_apply z1 up down).1.tsus = z1.tsus ∧
    (fixed_apply z1 up down).1.dtus = z1.dtus ∧
    (fixed_apply z1 up down).1.last_encoded = z1.last_encoded := by
  unfold fixed_apply
  dsimp only
  split_ifs <;> simp

/-- The mode/binding fields of an encoder are never changed by
`update_zyncoder`. -/
theorem update_zyncoder_core_fields (z : zyncoder_st) (m l now : Nat) :
    (update_zyncoder_core z m l now).1.enabled = z.enabled ∧
    (update_zyncoder_core z m l now).1.step = z.step ∧
    (update_zyncoder_core z m l now).1.max_value = z.max_value ∧
    (update_zyncoder_core z m l now).1.midi_chan = z.midi_chan ∧
    (update_zyncoder_core z m l now).1.midi_ctrl = z.midi_ctrl := by
  unfold update_zyncoder_core
  dsimp only
  split_ifs <;>
    simp [vel_up_apply_fields, vel_down_apply_fields, fixed_apply_fields]

/-- Any tick on an enabled encoder stores the fresh 2-bit pin snapshot in
`last_encoded` (line 606), in every branch. -/
theorem update_zyncoder_core_last_encoded (z : zyncoder_st) (m l now : Nat)
    (he : z.enabled = true) :
    (update_zyncoder_core z m l now).1.last_encoded = (m <<< 1) ||| l := by
  unfold update_zyncoder_core
  dsimp only
  split_ifs <;>
    simp_all [vel_up_apply_fields, vel_down_apply_fields, fixed_apply_fields]

/-- `dsval_of` only reads the `dtus` ring, so storing `last_encoded` does
not change it. -/
theorem dsval_of_congr (z : zyncoder_st) (e d : Nat) :
    dsval_of { z with last_encoded := e } d = dsval_of z d := rfl

/-- The velocity Up branch saturates `subvalue` at exactly `max_value` and
rederives `value` from it. -/
theorem vel_up_apply_char (z2 : zyncoder_st) (dsval now : Nat)
    (hsub : z2.subvalue ≤ z2.max_value) (hmax : z2.max_value < 4294967296) :
    (vel_up_apply z2 dsval now).1 =
      { z2 with subvalue := min (z2.subvalue + dsval) z2.max_value,
                value := min (z2.subvalue + dsval) z2.max_value /
                           ZYNCODER_TICKS_PER_RETENT,
                tsus := now } := by
  unfold vel_up_apply
  dsimp only
  rw [usub32_eq_sub _ _ hsub hmax]
  by_cases hc : dsval ≤ z2.max_value - z2.subvalue
  · have h1 : (z2.subvalue + dsval) % 4294967296 = z2.subvalue + dsval :=
      Nat.mod_eq_of_lt (by omega)
    have h2 : min (z2.subvalue + dsval) z2.max_value = z2.subvalue + dsval := by
      omega
    rw [if_pos hc]
    dsimp only
    rw [h1, h2]
    split_ifs with hne
    · rfl
    · cases z2
      simp_all
  · have h2 : min (z2.subvalue + dsval) z2.max_value = z2.max_value := by omega
    rw [if_neg hc]
    dsimp only
    rw [h2]
    split_ifs with hne
    · rfl
    · cases z2
      simp_all

/-- The velocity Down branch floors `subvalue` at 0 (truncated Nat
subtraction) and rederives `value` by ceiling division. -/
theorem vel_down_apply_char (z2 : zyncoder_st) (dsval now : Nat) :
    (vel_down_apply z2 dsval now).1 =
      { z2 with subvalue := z2.subvalue - dsval,
                value := (z2.subvalue - dsval + ZYNCODER_TICKS_PER_RETENT - 1) /
                           ZYNCODER_TICKS_PER_RETENT,
                tsus := now } := by
  unfold vel_down_apply
  dsimp only
  by_cases hc : dsval ≤ z2.subvalue
  · rw [if_pos hc]
    dsimp only
    split_ifs with hne
    · rfl
    · cases z2
      simp_all
  · have h0 : z2.subvalue - dsval = 0 := by omega
    rw [if_neg hc]
    dsimp only
    rw [h0]
    split_ifs with hne
    · rfl
    · cases z2
      simp_all

/-- The fixed-step branch: advance by `step` only when the whole step fits
below `max_value` (Up) or above 0 (Down). -/
theorem fixed_apply_char (z1 : zyncoder_st) (up down : Bool)
    (hv : z1.value ≤ z1.max_value) (hmax : z1.max_value < 4294967296) :
    (fixed_apply z1 up down).1 =
      { z1 with value := if z1.step ≤ z1.max_value - z1.value ∧ up = true
                         then z1.value + z1.step
                         else if z1.step ≤ z1.value ∧ down = true
                         then z1.value - z1.step
                         else z1.value } := by
  unfold fixed_apply
  dsimp only
  rw [if_neg (by omega : ¬ z1.max_value < z1.value)]
  rw [usub32_eq_sub _ _ hv hmax]
  by_cases hcu : z1.step ≤ z1.max_value - z1.value ∧ up = true
  · have h1 : (z1.value + z1.step) % 4294967296 = z1.value + z1.step :=
      Nat.mod_eq_of_lt (by omega)
    rw [if_pos hcu, if_pos hcu]
    dsimp only
    rw [h1]
    split_ifs <;> rfl
  · rw [if_neg hcu, if_neg hcu]
    by_cases hcd : z1.step ≤ z1.value ∧ down = true
    · rw [if_pos hcd, if_pos hcd]
      dsimp only
      split_ifs <;> rfl
    · rw [if_neg hcd, if_neg hcd]
      split_ifs <;> rfl

/-- Decomposition: enabled encoder, velocity mode, accepted Up tick. -/
theorem update_core_vel_up_eq (z : zyncoder_st) (m l now : Nat)
    (he : z.enabled = true) (hs : z.step = 0)
    (hup : quadUp (tickSum z ⟨m, l, now⟩) = true)
    (hacc : 1000 ≤ dtus32 now z.tsus) :
    update_zyncoder_core z m l now =
      vel_up_apply
        { z with last_encoded := (m <<< 1) ||| l,
                 dtus := z.dtus.tail ++ [dtus32 now z.tsus] }
        (dsval_of z (dtus32 now z.tsus)) now := by
  have hd : ¬ dtus32 now z.tsus < 1000 := by omega
  have hup' : quadUp ((z.last_encoded <<< 2) ||| ((m <<< 1) ||| l)) = true := hup
  unfold update_zyncoder_core
  dsimp only
  rw [if_neg (by simp [he]), if_pos hs, if_neg hd, if_pos hup']
  rfl

/-- Decomposition: enabled encoder, velocity mode, accepted Down tick. -/
theorem update_core_vel_down_eq (z : zyncoder_st) (m l now : Nat)
    (he : z.enabled = true) (hs : z.step = 0)
    (hdown : quadDown (tickSum z ⟨m, l, now⟩) = true)
    (hacc : 1000 ≤ dtus32 now z.tsus) :
    update_zyncoder_core z m l now =
      vel_down_apply
        { z with last_encoded := (m <<< 1) ||| l,
                 dtus := z.dtus.tail ++ [dtus32 now z.tsus] }
        (dsval_of z (dtus32 now z.tsus)) now := by
  have hd : ¬ dtus32 now z.tsus < 1000 := by omega
  have hup' : quadUp ((z.last_encoded <<< 2) ||| ((m <<< 1) ||| l)) = false := by
    have := hdown
    unfold quadDown at this
    simp only [Bool.and_eq_true, Bool.not_eq_true'] at this
    exact this.1
  have hdown' : quadDown ((z.last_encoded <<< 2) ||| ((m <<< 1) ||| l)) = true :=
    hdown
  unfold update_zyncoder_core
  dsimp only
  rw [if_neg (by simp [he]), if_pos hs, if_neg hd, if_neg (by simp [hup']),
    if_pos hdown']
  rfl

/-- Decomposition: enabled encoder, velocity mode, accepted tick with no
direction: only the ring, `tsus` and `last_encoded` move. -/
theorem update_core_vel_noop_eq (z : zyncoder_st) (m l now : Nat)
    (he : z.enabled = true) (hs : z.step = 0)
    (hup : quadUp (tickSum z ⟨m, l, now⟩) = false)
    (hdown : quadDown (tickSum z ⟨m, l, now⟩) = false)
    (hacc : 1000 ≤ dtus32 now z.tsus) :
    update_zyncoder_core z m l now =
      ({ z with last_encoded := (m <<< 1) ||| l,
                dtus := z.dtus.tail ++ [dtus32 now z.tsus],
                tsus := now }, []) := by
  have hd : ¬ dtus32 now z.tsus < 1000 := by omega
  have hup' : quadUp ((z.last_encoded <<< 2) ||| ((m <<< 1) ||| l)) = false := hup
  have hdown' : quadDown ((z.last_encoded <<< 2) ||| ((m <<< 1) ||| l)) = false :=
    hdown
  unfold update_zyncoder_core
  dsimp only
  rw [if_neg (by simp [he]), if_pos hs, if_neg hd, if_neg (by simp [hup']),
    if_neg (by simp [hdown'])]

/-- Decomposition: enabled encoder, fixed-step mode. -/
theorem update_core_fixed_eq (z : zyncoder_st) (m l now : Nat)
    (he : z.enabled = true) (hs : z.step ≠ 0) :
    update_zyncoder_core z m l now =
      fixed_apply { z with last_encoded := (m <<< 1) ||| l }
        (quadUp (tickSum z ⟨m, l, now⟩)) (quadDown (tickSum z ⟨m, l, now⟩)) := by
  unfold update_zyncoder_core
  dsimp only
  rw [if_neg (by simp [he]), if_neg hs]
  rfl

/-- A disabled encoder is completely inert (lines 592-593). -/
theorem update_core_disabled (z : zyncoder_st) (m l now : Nat)
    (he : z.enabled = false) : update_zyncoder_core z m l now = (z, []) := by
  unfold update_zyncoder_core
  rw [if_pos he]

/-- `update_zyncoder` preserves the bound invariant of any record whose
`max_value` fits in an `unsigned int`. -/
theorem update_core_inv (z : zyncoder_st) (m l now : Nat)
    (hmax : z.max_value < 4294967296) (hinv : zyn_inv z) :
    zyn_inv (update_zyncoder_core z m l now).1 := by
  obtain ⟨hv, hsub⟩ := hinv
  by_cases he : z.enabled = true
  · by_cases hs : z.step = 0
    · have hsub' : z.subvalue ≤ z.max_value := hsub.resolve_left (by simp [hs])
      by_cases hacc : 1000 ≤ dtus32 now z.tsus
      · by_cases hup : quadUp (tickSum z ⟨m, l, now⟩) = true
        · rw [update_core_vel_up_eq z m l now he hs hup hacc,
            vel_up_apply_char
              { z with last_encoded := (m <<< 1) ||| l,
                       dtus := z.dtus.tail ++ [dtus32 now z.tsus] }
              (dsval_of z (dtus32 now z.tsus)) now hsub' hmax]
          unfold zyn_inv ZYNCODER_TICKS_PER_RETENT
          dsimp only
          constructor
          · omega
          · right; omega
        · by_cases hdown : quadDown (tickSum z ⟨m, l, now⟩) = true
          · rw [update_core_vel_down_eq z m l now he hs hdown hacc,
              vel_down_apply_char]
            unfold zyn_inv ZYNCODER_TICKS_PER_RETENT
            dsimp only
            constructor
            · omega
            · right; omega
          · rw [update_core_vel_noop_eq z m l now he hs
              (by simpa using hup) (by simpa using hdown) hacc]
            exact ⟨hv, Or.inr hsub'⟩
      · rw [vel_debounced z m l now he hs (by omega)]
        exact ⟨hv, Or.inr hsub'⟩
    · rw [update_core_fixed_eq z m l now he hs,
        fixed_apply_char { z with last_encoded := (m <<< 1) ||| l }
          (quadUp (tickSum z ⟨m, l, now⟩)) (quadDown (tickSum z ⟨m, l, now⟩))
          hv hmax]
      unfold zyn_inv
      dsimp only
      constructor
      · split_ifs with h1 h2
        · omega
        · omega
        · exact hv
      · exact Or.inl hs
  · rw [update_core_disabled z m l now (by simpa using he)]
    exact ⟨hv, hsub⟩

/-- Value change of a fixed-step Up tick: add `step` exactly when the whole
step fits. -/
theorem fixed_up_tick_value (z : zyncoder_st) (t : Tick)
    (he : z.enabled = true) (hs : z.step ≠ 0)
    (hmax : z.max_value < 4294967296) (hv : z.value ≤ z.max_value)
    (hup : quadUp (tickSum z t) = true) :
    (update_zyncoder_core z t.msb t.lsb t.now).1.value =
      (if z.step ≤ z.max_value - z.value then z.value + z.step
       else z.value) := by
  have hdn : quadDown (tickSum z t) = false := by
    unfold quadDown; simp [hup]
  rw [update_core_fixed_eq z t.msb t.lsb t.now he hs,
    fixed_apply_char { z with last_encoded := (t.msb <<< 1) ||| t.lsb }
      (quadUp (tickSum z ⟨t.msb, t.lsb, t.now⟩))
      (quadDown (tickSum z ⟨t.msb, t.lsb, t.now⟩)) hv hmax]
  dsimp only
  simp [hup, hdn]

/-- Value change of a fixed-step Down tick: subtract `step` exactly when
the whole step fits. -/
theorem fixed_down_tick_value (z : zyncoder_st) (t : Tick)
    (he : z.enabled = true) (hs : z.step ≠ 0)
    (hmax : z.max_value < 4294967296) (hv : z.value ≤ z.max_value)
    (hdown : quadDown (tickSum z t) = true) :
    (update_zyncoder_core z t.msb t.lsb t.now).1.value =
      (if z.step ≤ z.value then z.value - z.step else z.value) := by
  have hupf : quadUp (tickSum z t) = false := by
    have := hdown
    unfold quadDown at this
    simp only [Bool.and_eq_true, Bool.not_eq_true'] at this
    exact this.1
  rw [update_core_fixed_eq z t.msb t.lsb t.now he hs,
    fixed_apply_char { z with last_encoded := (t.msb <<< 1) ||| t.lsb }
      (quadUp (tickSum z ⟨t.msb, t.lsb, t.now⟩))
      (quadDown (tickSum z ⟨t.msb, t.lsb, t.now⟩)) hv hmax]
  dsimp only
  simp [hupf, hdown]

/-- Full record after an accepted velocity Up tick. -/
theorem vel_up_tick_char (z : zyncoder_st) (m l now : Nat)
    (he : z.enabled = true) (hs : z.step = 0)
    (hmax : z.max_value < 4294967296) (hsub : z.subvalue ≤ z.max_value)
    (hup : quadUp (tickSum z ⟨m, l, now⟩) = true)
    (hacc : 1000 ≤ dtus32 now z.tsus) :
    ∃ d, 1 ≤ d ∧
      (update_zyncoder_core z m l now).1 =
        { z with last_encoded := (m <<< 1) ||| l,
                 dtus := z.dtus.tail ++ [dtus32 now z.tsus],
                 tsus := now,
                 subvalue := min (z.subvalue + d) z.max_value,
                 value := min (z.subvalue + d) z.max_value /
                            ZYNCODER_TICKS_PER_RETENT } := by
  refine ⟨dsval_of z (dtus32 now z.tsus), dsval_of_pos _ _, ?_⟩
  rw [update_core_vel_up_eq z m l now he hs hup hacc,
    vel_up_apply_char
      { z with last_encoded := (m <<< 1) ||| l,
               dtus := z.dtus.tail ++ [dtus32 now z.tsus] }
      (dsval_of z (dtus32 now z.tsus)) now hsub hmax]

/-- Full record after an accepted velocity Down tick. -/
theorem vel_down_tick_char (z : zyncoder_st) (m l now : Nat)
    (he : z.enabled = true) (hs : z.step = 0)
    (hdown : quadDown (tickSum z ⟨m, l, now⟩) = true)
    (hacc : 1000 ≤ dtus32 now z.tsus) :
    ∃ d, 1 ≤ d ∧
      (update_zyncoder_core z m l now).1 =
        { z with last_encoded := (m <<< 1) ||| l,
                 dtus := z.dtus.tail ++ [dtus32 now z.tsus],
                 tsus := now,
                 subvalue := z.subvalue - d,
                 value := (z.subvalue - d + ZYNCODER_TICKS_PER_RETENT - 1) /
                            ZYNCODER_TICKS_PER_RETENT } := by
  refine ⟨dsval_of z (dtus32 now z.tsus), dsval_of_pos _ _, ?_⟩
  rw [update_core_vel_down_eq z m l now he hs hdown hacc,
    vel_down_apply_char]

/-- Full record after a fixed-step tick. -/
theorem fixed_tick_char (z : zyncoder_st) (m l now : Nat)
    (he : z.enabled = true) (hs : z.step ≠ 0)
    (hmax : z.max_value < 4294967296) (hv : z.value ≤ z.max_value) :
    (update_zyncoder_core z m l now).1 =
      { z with last_encoded := (m <<< 1) ||| l,
               value := if z.step ≤ z.max_value - z.value ∧
                           quadUp (tickSum z ⟨m, l, now⟩) = true
                        then z.value + z.step
                        else if z.step ≤ z.value ∧
                                quadDown (tickSum z ⟨m, l, now⟩) = true
                        then z.value - z.step
                        else z.value } := by
  rw [update_core_fixed_eq z m l now he hs,
    fixed_apply_char { z with last_encoded := (m <<< 1) ||| l }
      (quadUp (tickSum z ⟨m, l, now⟩))
      (quadDown (tickSum z ⟨m, l, now⟩)) hv hmax]

/-! ### Multi-tick runs -/

/-- A run of accepted Up ticks in velocity mode: `subvalue` stays within
the bound, advances by at least 1 per tick until it saturates, and `value`
tracks `subvalue / ZYNCODER_TICKS_PER_RETENT` after every tick. -/
theorem vel_up_run (ts : List Tick) :
    ∀ z : zyncoder_st, upAccScript z ts = true → z.enabled = true →
      z.step = 0 → z.max_value < 4294967296 → z.subvalue ≤ z.max_value →
      (applyTicks z ts).enabled = true ∧
      (applyTicks z ts).step = 0 ∧
      (applyTicks z ts).max_value = z.max_value ∧
      (applyTicks z ts).subvalue ≤ z.max_value ∧
      min (z.subvalue + ts.length) z.max_value ≤ (applyTicks z ts).subvalue ∧
      (ts ≠ [] → (applyTicks z ts).value =
        (applyTicks z ts).subvalue / ZYNCODER_TICKS_PER_RETENT) := by
  induction ts with
  | nil =>
    intro z _ he hs _ hsub
    refine ⟨he, hs, rfl, hsub, ?_, by simp⟩
    show min (z.subvalue + ([] : List Tick).length) z.max_value ≤ z.subvalue
    simp only [List.length_nil]
    omega
  | cons t rest ih =>
    intro z hscript he hs hmax hsub
    unfold upAccScript at hscript
    simp only [Bool.and_eq_true, decide_eq_true_eq] at hscript
    obtain ⟨⟨hup, hacc⟩, hrest⟩ := hscript
    obtain ⟨d, hd1, heq⟩ := vel_up_tick_char z t.msb t.lsb t.now he hs hmax hsub hup hacc
    have happ : applyTicks z (t :: rest) =
        applyTicks (update_zyncoder_core z t.msb t.lsb t.now).1 rest := rfl
    rw [heq] at hrest
    rw [happ, heq]
    obtain ⟨ih1, ih2, ih3, ih4, ih5, ih6⟩ :=
      ih _ hrest he hs hmax (min_le_right _ _)
    refine ⟨ih1, ih2, ih3, ih4, ?_, ?_⟩
    · refine le_trans ?_ ih5
      simp only [List.length_cons]
      omega
    · intro _
      cases rest with
      | nil => rfl
      | cons t2 rest2 => exact ih6 (by simp)

/-- A run of accepted Down ticks in velocity mode: `subvalue` decreases by
at least 1 per tick until it floors at 0, and `value` tracks the ceiling
division after every tick. -/
theorem vel_down_run (ts : List Tick) :
    ∀ z : zyncoder_st, downAccScript z ts = true → z.enabled = true →
      z.step = 0 → z.max_value < 4294967296 → z.subvalue ≤ z.max_value →
      (applyTicks z ts).enabled = true ∧
      (applyTicks z ts).step = 0 ∧
      (applyTicks z ts).max_value = z.max_value ∧
      (applyTicks z ts).subvalue ≤ z.subvalue - ts.length ∧
      (ts ≠ [] → (applyTicks z ts).value =
        ((applyTicks z ts).subvalue + ZYNCODER_TICKS_PER_RETENT - 1) /
          ZYNCODER_TICKS_PER_RETENT) := by
  induction ts with
  | nil =>
    intro z _ he hs _ _
    refine ⟨he, hs, rfl, ?_, by simp⟩
    show z.subvalue ≤ z.subvalue - ([] : List Tick).length
    simp
  | cons t rest ih =>
    intro z hscript he hs hmax hsub
    unfold downAccScript at hscript
    simp only [Bool.and_eq_true, decide_eq_true_eq] at hscript
    obtain ⟨⟨hdown, hacc⟩, hrest⟩ := hscript
    obtain ⟨d, hd1, heq⟩ := vel_down_tick_char z t.msb t.lsb t.now he hs hdown hacc
    have happ : applyTicks z (t :: rest) =
        applyTicks (update_zyncoder_core z t.msb t.lsb t.now).1 rest := rfl
    rw [heq] at hrest
    rw [happ, heq]
    obtain ⟨ih1, ih2, ih3, ih4, ih5⟩ :=
      ih _ hrest he hs hmax (le_trans (Nat.sub_le _ _) hsub)
    refine ⟨ih1, ih2, ih3, ?_, ?_⟩
    · refine le_trans ih4 ?_
      simp only [List.length_cons]
      omega
    · intro _
      cases rest with
      | nil => rfl
      | cons t2 rest2 => exact ih5 (by simp)

/-- A run of Up-classified ticks in fixed-step mode: `value` moves up in
exact multiples of `step` and stops within one `step` of `max_value`. -/
theorem fixed_up_run (ts : List Tick) :
    ∀ (z : zyncoder_st) (st0 mx v0 : Nat), upAccScript z ts = true →
      z.enabled = true → z.step = st0 → st0 ≠ 0 → z.max_value = mx →
      mx < 4294967296 → z.value = v0 → v0 ≤ mx →
      (applyTicks z ts).enabled = true ∧
      (applyTicks z ts).step = st0 ∧
      (applyTicks z ts).max_value = mx ∧
      (applyTicks z ts).value ≤ mx ∧
      ∃ k ≤ ts.length, (applyTicks z ts).value = v0 + st0 * k ∧
        (mx - (applyTicks z ts).value < st0 ∨ k = ts.length) := by
  induction ts with
  | nil =>
    intro z st0 mx v0 _ he hst _ hmx _ hv0 hvm
    exact ⟨he, hst, hmx, by simp only [applyTicks]; omega, 0, by simp,
      by simpa [applyTicks] using hv0, Or.inr rfl⟩
  | cons t rest ih =>
    intro z st0 mx v0 hscript he hst hst0 hmx hmx32 hv0 hvm
    unfold upAccScript at hscript
    simp only [Bool.and_eq_true, decide_eq_true_eq] at hscript
    obtain ⟨⟨hup, hacc⟩, hrest⟩ := hscript
    have hdn : quadDown (tickSum z t) = false := by
      unfold quadDown; simp [hup]
    have heq := fixed_tick_char z t.msb t.lsb t.now he (by omega) (by omega) (by omega)
    have happ : applyTicks z (t :: rest) =
        applyTicks (update_zyncoder_core z t.msb t.lsb t.now).1 rest := rfl
    rw [heq] at hrest
    rw [happ, heq]
    simp only [hup, hdn, Bool.false_eq_true, eq_self_iff_true, and_true,
      and_false, if_false] at hrest ⊢
    by_cases hfit : z.step ≤ z.max_value - z.value
    · rw [if_pos hfit] at hrest ⊢
      obtain ⟨ih1, ih2, ih3, ih4, k, hkL, hkv, hkd⟩ :=
        ih _ st0 mx (v0 + st0) hrest he hst hst0 hmx hmx32
          (show z.value + z.step = v0 + st0 by omega) (by omega)
      refine ⟨ih1, ih2, ih3, ih4, k + 1, ?_, ?_, ?_⟩
      · simp only [List.length_cons]; omega
      · rw [hkv, Nat.mul_succ]; ring
      · rcases hkd with h | h
        · exact Or.inl h
        · exact Or.inr (by simp only [List.length_cons]; omega)
    · rw [if_neg hfit] at hrest ⊢
      obtain ⟨ih1, ih2, ih3, ih4, k, hkL, hkv, hkd⟩ :=
        ih _ st0 mx v0 hrest he hst hst0 hmx hmx32 hv0 hvm
      refine ⟨ih1, ih2, ih3, ih4, k, ?_, hkv, Or.inl ?_⟩
      · simp only [List.length_cons]; omega
      · generalize hg : st0 * k = q at hkv
        omega

/-- A run of Down-classified ticks in fixed-step mode: `value` moves down
in exact multiples of `step` and stops below one `step`. -/
theorem fixed_down_run (ts : List Tick) :
    ∀ (z : zyncoder_st) (st0 mx v0 : Nat), downAccScript z ts = true →
      z.enabled = true → z.step = st0 → st0 ≠ 0 → z.max_value = mx →
      mx < 4294967296 → z.value = v0 → v0 ≤ mx →
      (applyTicks z ts).enabled = true ∧
      (applyTicks z ts).step = st0 ∧
      (applyTicks z ts).max_value = mx ∧
      (applyTicks z ts).value ≤ mx ∧
      ∃ k ≤ ts.length, st0 * k ≤ v0 ∧
        (applyTicks z ts).value = v0 - st0 * k ∧
        ((applyTicks z ts).value < st0 ∨ k = ts.length) := by
  induction ts with
  | nil =>
    intro z st0 mx v0 _ he hst _ hmx _ hv0 hvm
    exact ⟨he, hst, hmx, by simp only [applyTicks]; omega, 0, by simp, by simp,
      by simpa [applyTicks] using hv0, Or.inr rfl⟩
  | cons t rest ih =>
    intro z st0 mx v0 hscript he hst hst0 hmx hmx32 hv0 hvm
    unfold downAccScript at hscript
    simp only [Bool.and_eq_true, decide_eq_true_eq] at hscript
    obtain ⟨⟨hdown, hacc⟩, hrest⟩ := hscript
    have hupf : quadUp (tickSum z t) = false := by
      have := hdown
      unfold quadDown at this
      simp only [Bool.and_eq_true, Bool.not_eq_true'] at this
      exact this.1
    have heq := fixed_tick_char z t.msb t.lsb t.now he (by omega) (by omega) (by omega)
    have happ : applyTicks z (t :: rest) =
        applyTicks (update_zyncoder_core z t.msb t.lsb t.now).1 rest := rfl
    rw [heq] at hrest
    rw [happ, heq]
    simp only [hupf, hdown, Bool.false_eq_true, eq_self_iff_true, and_true,
      and_false, if_false] at hrest ⊢
    by_cases hfit : z.step ≤ z.value
    · rw [if_pos hfit] at hrest ⊢
      obtain ⟨ih1, ih2, ih3, ih4, k, hkL, hkq, hkv, hkd⟩ :=
        ih _ st0 mx (v0 - st0) hrest he hst hst0 hmx hmx32
          (show z.value - z.step = v0 - st0 by omega) (by omega)
      refine ⟨ih1, ih2, ih3, ih4, k + 1, ?_, ?_, ?_, ?_⟩
      · simp only [List.length_cons]; omega
      · rw [Nat.mul_succ]
        generalize hg : st0 * k = q at hkq
        omega
      · rw [hkv, Nat.mul_succ]
        generalize hg : st0 * k = q at hkq ⊢
        omega
      · rcases hkd with h | h
        · exact Or.inl h
        · exact Or.inr (by simp only [List.length_cons]; omega)
    · rw [if_neg hfit] at hrest ⊢
      obtain ⟨ih1, ih2, ih3, ih4, k, hkL, hkq, hkv, hkd⟩ :=
        ih _ st0 mx v0 hrest he hst hst0 hmx hmx32 hv0 hvm
      refine ⟨ih1, ih2, ih3, ih4, k, ?_, hkq, hkv, Or.inl ?_⟩
      · simp only [List.length_cons]; omega
      · generalize hg : st0 * k = q at hkq hkv
        omega

/-- Resolving the fixed-step Up run: with enough ticks the final value is
the largest `value + step * k` not exceeding `max_value`, which equals
`max_value` exactly when `step` divides the gap. -/
theorem fixed_up_sat_aux (v st mx fv L : Nat) (hst : st ≠ 0) (hv : v ≤ mx)
    (hfv : fv ≤ mx) (hL : mx - v ≤ L)
    (h : ∃ k ≤ L, fv = v + st * k ∧ (mx - fv < st ∨ k = L)) :
    fv = v + st * ((mx - v) / st) ∧ (fv = mx ↔ st ∣ (mx - v)) := by
  obtain ⟨k, hkL, hfk, hd⟩ := h
  have hstpos : 0 < st := Nat.pos_of_ne_zero hst
  have hlt : mx - fv < st := by
    rcases hd with h | h
    · exact h
    · subst h
      have h1 : k ≤ st * k := Nat.le_mul_of_pos_left k hstpos
      generalize hg : st * k = q at hfk h1
      omega
  have h2 : st * k ≤ mx - v := by
    generalize hg : st * k = q at hfk
    omega
  have h3 : mx - v < st * k + st := by
    generalize hg : st * k = q at hfk hlt
    omega
  have hkeq : (mx - v) / st = k := by
    refine Nat.div_eq_of_lt_le ?_ ?_
    · rw [mul_comm]; exact h2
    · rw [Nat.succ_mul, mul_comm]; exact h3
  constructor
  · rw [hkeq]; exact hfk
  · constructor
    · intro hfm
      refine ⟨k, ?_⟩
      generalize hg : st * k = q at hfk h2
      omega
    · intro hdv
      have hcan : st * ((mx - v) / st) = mx - v := Nat.mul_div_cancel' hdv
      rw [hkeq] at hcan
      generalize hg : st * k = q at hfk hcan
      omega

/-- Resolving the fixed-step Down run: with enough ticks the final value is
`value % step`, which is 0 exactly when `step` divides the start value. -/
theorem fixed_down_sat_aux (v st fv L : Nat) (hst : st ≠ 0) (hL : v ≤ L)
    (h : ∃ k ≤ L, st * k ≤ v ∧ fv = v - st * k ∧ (fv < st ∨ k = L)) :
    fv = v % st ∧ (fv = 0 ↔ st ∣ v) := by
  obtain ⟨k, hkL, hkq, hfk, hd⟩ := h
  have hstpos : 0 < st := Nat.pos_of_ne_zero hst
  have hlt : fv < st := by
    rcases hd with h | h
    · exact h
    · subst h
      have h1 : k ≤ st * k := Nat.le_mul_of_pos_left k hstpos
      generalize hg : st * k = q at hkq hfk h1
      omega
  have hvq : v = st * k + fv := by
    generalize hg : st * k = q at hkq hfk
    omega
  have hmod : v % st = fv := by
    rw [hvq, Nat.mul_add_mod]
    exact Nat.mod_eq_of_lt hlt
  refine ⟨hmod.symm, ?_, ?_⟩
  · intro h0
    refine ⟨k, ?_⟩
    generalize hg : st * k = q at hvq ⊢
    omega
  · intro hdv
    obtain ⟨c, hc⟩ := hdv
    have h0 : v % st = 0 := by rw [hc]; exact Nat.mul_mod_right st c
    omega

/-- Velocity mode saturates exactly: enough accepted Up ticks pin
`subvalue` to `max_value` and `value` to `max_value / TICKS_PER_RETENT`. -/
theorem vel_up_saturates (z : zyncoder_st) (ts : List Tick)
    (hscript : upAccScript z ts = true) (he : z.enabled = true)
    (hs : z.step = 0) (hmax : z.max_value < 4294967296)
    (hsub : z.subvalue ≤ z.max_value)
    (hlen : z.max_value - z.subvalue ≤ ts.length) (hne : ts ≠ []) :
    (applyTicks z ts).subvalue = z.max_value ∧
    (applyTicks z ts).value = z.max_value / ZYNCODER_TICKS_PER_RETENT := by
  obtain ⟨_, _, _, h4, h5, h6⟩ := vel_up_run ts z hscript he hs hmax hsub
  have hsubeq : (applyTicks z ts).subvalue = z.max_value := by omega
  exact ⟨hsubeq, by rw [h6 hne, hsubeq]⟩

/-- Velocity mode saturates exactly at 0: enough accepted Down ticks pin
`subvalue` and `value` to 0. -/
theorem vel_down_saturates (z : zyncoder_st) (ts : List Tick)
    (hscript : downAccScript z ts = true) (he : z.enabled = true)
    (hs : z.step = 0) (hmax : z.max_value < 4294967296)
    (hsub : z.subvalue ≤ z.max_value)
    (hlen : z.subvalue ≤ ts.length) (hne : ts ≠ []) :
    (applyTicks z ts).subvalue = 0 ∧ (applyTicks z ts).value = 0 := by
  obtain ⟨_, _, _, h4, h5⟩ := vel_down_run ts z hscript he hs hmax hsub
  have h0 : (applyTicks z ts).subvalue = 0 := by omega
  refine ⟨h0, ?_⟩
  rw [h5 hne, h0]
  decide

/-- Fixed-step mode under enough Up ticks: `value` lands on the largest
`value + step * k` not exceeding `max_value`, and hits `max_value` exactly
when `step` divides the gap. -/
theorem fixed_up_saturates (z : zyncoder_st) (ts : List Tick)
    (hscript : upAccScript z ts = true) (he : z.enabled = true)
    (hst : z.step ≠ 0) (hmax : z.max_value < 4294967296)
    (hv : z.value ≤ z.max_value)
    (hlen : z.max_value - z.value ≤ ts.length) :
    (applyTicks z ts).value =
      z.value + z.step * ((z.max_value - z.value) / z.step) ∧
    ((applyTicks z ts).value = z.max_value ↔
      z.step ∣ (z.max_value - z.value)) := by
  obtain ⟨_, _, _, h4, hex⟩ :=
    fixed_up_run ts z z.step z.max_value z.value hscript he rfl hst rfl hmax
      rfl hv
  exact fixed_up_sat_aux z.value z.step z.max_value _ ts.length hst hv h4 hlen
    hex

/-- Fixed-step mode under enough Down ticks: `value` lands on
`value % step`, hitting 0 exactly when `step` divides the start value. -/
theorem fixed_down_saturates (z : zyncoder_st) (ts : List Tick)
    (hscript : downAccScript z ts = true) (he : z.enabled = true)
    (hst : z.step ≠ 0) (hmax : z.max_value < 4294967296)
    (hv : z.value ≤ z.max_value) (hlen : z.value ≤ ts.length) :
    (applyTicks z ts).value = z.value % z.step ∧
    ((applyTicks z ts).value = 0 ↔ z.step ∣ z.value) := by
  obtain ⟨_, _, _, h4, hex⟩ :=
    fixed_down_run ts z z.step z.max_value z.value hscript he rfl hst rfl hmax
      rfl hv
  exact fixed_down_sat_aux z.value z.step _ ts.length hst hlen hex

/-- The Up set of line 602, as list membership. -/
theorem quadUp_mem (sum : Nat) :
    quadUp sum = true ↔ sum ∈ ([13, 4, 2, 11] : List Nat) := by
  unfold quadUp
  simp only [Bool.or_eq_true, beq_iff_eq, List.mem_cons, List.mem_singleton,
    List.not_mem_nil, or_false]
  tauto

/-- The Down set of lines 603-604, as list membership: the `!up` guard is
redundant because the two sets are disjoint. -/
theorem quadDown_mem (sum : Nat) :
    quadDown sum = true ↔ sum ∈ ([14, 7, 1, 8] : List Nat) := by
  constructor
  · intro h
    unfold quadDown at h
    simp only [Bool.and_eq_true, Bool.or_eq_true, beq_iff_eq] at h
    rcases h.2 with ((h | h) | h) | h <;> simp [h]
  · intro h
    fin_cases h <;> decide

/-- A tick classified neither Up nor Down never changes `value` or
`subvalue` (given the bound invariant, so the fixed-step clamp is a
no-op). -/
theorem noop_value_subvalue (z : zyncoder_st) (m l now : Nat)
    (he : z.enabled = true)
    (hup : quadUp (tickSum z ⟨m, l, now⟩) = false)
    (hdown : quadDown (tickSum z ⟨m, l, now⟩) = false)
    (hv : z.value ≤ z.max_value) (hmax : z.max_value < 4294967296) :
    (update_zyncoder_core z m l now).1.value = z.value ∧
    (update_zyncoder_core z m l now).1.subvalue = z.subvalue := by
  by_cases hs : z.step = 0
  · by_cases hacc : 1000 ≤ dtus32 now z.tsus
    · rw [update_core_vel_noop_eq z m l now he hs hup hdown hacc]
      exact ⟨rfl, rfl⟩
    · rw [vel_debounced z m l now he hs (by omega)]
      exact ⟨rfl, rfl⟩
  · rw [fixed_tick_char z m l now he hs hmax hv]
    simp [hup, hdown]

theorem updArr_self {α : Type} (s : Nat → α) (i : Nat) (v : α) :
    updArr s i v i = v := by
  unfold updArr
  simp

theorem updArr_other {α : Type} (s : Nat → α) (i : Nat) (v : α) (j : Nat)
    (h : j ≠ i) : updArr s i v j = s j := by
  unfold updArr
  simp [h]

/-- `setup_zyncoder_core` establishes the bound invariant whenever the
configured velocity range fits `unsigned int` arithmetic. -/
theorem setup_core_inv (z : zyncoder_st) (pa pb mc mk : Nat)
    (op : Option Nat) (v mv stv : Nat)
    (hmv : ZYNCODER_TICKS_PER_RETENT * mv < 4294967296) :
    zyn_inv (setup_zyncoder_core z pa pb mc mk op v mv stv) := by
  unfold setup_zyncoder_core zyn_inv ZYNCODER_TICKS_PER_RETENT at *
  cases op <;>
    (dsimp only;
     split_ifs <;> first | omega | (dsimp only; omega))

/-! ### Claim theorems -/

/-- C2: quadrature classification in `update_zyncoder`: with `sum =
(last_encoded << 2) | encoded`, Up exactly on {0b1101, 0b0100, 0b0010,
0b1011}, Down (only when not Up) exactly on {0b1110, 0b0111, 0b0001,
0b1000}; any other `sum` changes neither `value` nor `subvalue` (so feeding
the same (A,B) pair twice back-to-back produces at most one value change),
and `last_encoded` is set to `encoded` afterwards. -/
theorem C2_quadrature :
    (∀ sum : Nat, quadUp sum = true ↔ sum ∈ ([13, 4, 2, 11] : List Nat)) ∧
    (∀ sum : Nat, quadDown sum = true ↔ sum ∈ ([14, 7, 1, 8] : List Nat)) ∧
    (∀ (z : zyncoder_st) (m l now : Nat), z.enabled = true →
      (update_zyncoder_core z m l now).1.last_encoded = (m <<< 1) ||| l) ∧
    (∀ (z : zyncoder_st) (m l now : Nat), z.enabled = true →
      quadUp (tickSum z ⟨m, l, now⟩) = false →
      quadDown (tickSum z ⟨m, l, now⟩) = false →
      z.value ≤ z.max_value → z.max_value < 4294967296 →
      (update_zyncoder_core z m l now).1.value = z.value ∧
      (update_zyncoder_core z m l now).1.subvalue = z.subvalue) ∧
    (∀ (z : zyncoder_st) (m l now now2 : Nat), z.enabled = true →
      m ≤ 1 → l ≤ 1 → zyn_inv z → z.max_value < 4294967296 →
      (update_zyncoder_core (update_zyncoder_core z m l now).1 m l
        now2).1.value = (update_zyncoder_core z m l now).1.value) := by
  refine ⟨quadUp_mem, quadDown_mem, update_zyncoder_core_last_encoded,
    ?_, ?_⟩
  · intro z m l now he hup hdown hv hmax
    exact noop_value_subvalue z m l now he hup hdown hv hmax
  · intro z m l now now2 he hm hl hinv hmax
    have hfields := update_zyncoder_core_fields z m l now
    have he1 : (update_zyncoder_core z m l now).1.enabled = true := by
      rw [hfields.1]; exact he
    have hmax1 : (update_zyncoder_core z m l now).1.max_value < 4294967296 := by
      rw [hfields.2.2.1]; exact hmax
    have hinv1 : zyn_inv (update_zyncoder_core z m l now).1 :=
      update_core_inv z m l now hmax hinv
    have hle : (update_zyncoder_core z m l now).1.last_encoded =
        (m <<< 1) ||| l := update_zyncoder_core_last_encoded z m l now he
    have hsum : tickSum (update_zyncoder_core z m l now).1 ⟨m, l, now2⟩ =
        (((m <<< 1) ||| l) <<< 2) ||| ((m <<< 1) ||| l) := by
      unfold tickSum
      rw [hle]
    have hup2 : quadUp (tickSum (update_zyncoder_core z m l now).1
        ⟨m, l, now2⟩) = false := by
      rw [hsum]
      interval_cases m <;> interval_cases l <;> decide
    have hdown2 : quadDown (tickSum (update_zyncoder_core z m l now).1
        ⟨m, l, now2⟩) = false := by
      rw [hsum]
      interval_cases m <;> interval_cases l <;> decide
    exact (noop_value_subvalue _ m l now2 he1 hup2 hdown2 hinv1.1 hmax1).1

/-- Witness for C2 at concrete inputs: sum 0b1101 is in the Up set, and a
repeated identical (A,B)=(1,0) pair on a fixed-step encoder changes the
value at most once. -/
theorem C2_quadrature_witness :
    quadUp 13 = true ∧
    (update_zyncoder_core (update_zyncoder_core
        { zyncoder0 with enabled := true, step := 1, value := 3,
                         max_value := 10 } 1 0 0).1 1 0 0).1.value =
      (update_zyncoder_core
        { zyncoder0 with enabled := true, step := 1, value := 3,
                         max_value := 10 } 1 0 0).1.value :=
  ⟨(C2_quadrature.1 13).mpr (by decide),
   C2_quadrature.2.2.2.2
     { zyncoder0 with enabled := true, step := 1, value := 3,
                      max_value := 10 } 1 0 0 0 (by decide) (by decide)
     (by decide) (by decide) (by decide)⟩

/-- C4 counterexample: the claim says a tick with `dtus < 1000` µs is
discarded with no state change in both modes, but in fixed-step mode
(`step > 0`) there is no debounce at all: a tick only 500 µs after `tsus`
still advances the value (and `last_encoded` is updated even for velocity
mode discards, since line 606 runs before the line 628 check). -/
theorem C4_counterexample :
    dtus32 500 0 < 1000 ∧
    (update_zyncoder_core
      { zyncoder0 with enabled := true, step := 1, value := 5,
                       max_value := 10 } 1 0 500).1.value = 6 := by
  decide

/-- C4 amended: the 1 ms debounce exists only in velocity mode
(`step == 0`), where a discarded tick changes nothing except
`last_encoded` (stored at line 606, before the debounce check) and emits
nothing; fixed-step mode processes every classified tick regardless of its
spacing. -/
theorem C4_debounce_amended :
    (∀ (z : zyncoder_st) (m l now : Nat), z.enabled = true → z.step = 0 →
      dtus32 now z.tsus < 1000 →
      update_zyncoder_core z m l now =
        ({ z with last_encoded := (m <<< 1) ||| l }, [])) ∧
    (∀ (z : zyncoder_st) (m l now : Nat), z.enabled = true → z.step ≠ 0 →
      z.max_value < 4294967296 → z.value ≤ z.max_value →
      quadUp (tickSum z ⟨m, l, now⟩) = true →
      z.step ≤ z.max_value - z.value →
      dtus32 now z.tsus < 1000 →
      (update_zyncoder_core z m l now).1.value = z.value + z.step) := by
  refine ⟨vel_debounced, ?_⟩
  intro z m l now he hs hmax hv hup hfit _
  rw [fixed_tick_char z m l now he hs hmax hv]
  simp [hup, hfit]

/-- Witness for C4 amended: a velocity-mode tick 500 µs after the last is
discarded except for `last_encoded`; a fixed-step tick at the same spacing
advances the value. -/
theorem C4_debounce_amended_witness :
    update_zyncoder_core
        { zyncoder0 with enabled := true, step := 0, value := 2,
                         subvalue := 8, max_value := 40, tsus := 100 }
        1 0 600 =
      ({ zyncoder0 with enabled := true, step := 0, value := 2,
                        subvalue := 8, max_value := 40, tsus := 100,
                        last_encoded := 2 }, []) ∧
    (update_zyncoder_core
        { zyncoder0 with enabled := true, step := 2, value := 5,
                         max_value := 10 } 1 0 500).1.value = 7 :=
  ⟨C4_debounce_amended.1 _ 1 0 600 rfl rfl (by decide),
   C4_debounce_amended.2 _ 1 0 500 rfl (by decide) (by decide) (by decide)
     (by decide) (by decide) (by decide)⟩

/-- C5 counterexample: the claim says arbitrarily many same-direction
accepted ticks drive the value to exactly `max_value`, but a fixed-step
encoder with `step = 3`, `value = 9`, `max_value = 10` is stuck: no number
of Up ticks ever reaches 10, because line 666 adds `step` only when
`max_value - value >= step`. -/
theorem C5_counterexample :
    ¬ ∃ ts : List Tick,
        upAccScript { zyncoder0 with enabled := true, step := 3,
                                     value := 9, max_value := 10 }
          ts = true ∧
        (applyTicks { zyncoder0 with enabled := true, step := 3,
                                     value := 9, max_value := 10 }
          ts).value = 10 := by
  have key : ∀ ts : List Tick, ∀ z : zyncoder_st, z.enabled = true →
      z.step = 3 → z.max_value = 10 → z.value = 9 →
      upAccScript z ts = true → (applyTicks z ts).value = 9 := by
    intro ts
    induction ts with
    | nil =>
      intro z _ _ _ hv _
      simpa [applyTicks] using hv
    | cons t rest ih =>
      intro z he hst hmx hv hscript
      unfold upAccScript at hscript
      simp only [Bool.and_eq_true, decide_eq_true_eq] at hscript
      obtain ⟨⟨hup, _⟩, hrest⟩ := hscript
      have hdn : quadDown (tickSum z t) = false := by
        unfold quadDown; simp [hup]
      have heq := fixed_tick_char z t.msb t.lsb t.now he (by omega)
        (by omega) (by omega)
      rw [heq] at hrest
      show (applyTicks (update_zyncoder_core z t.msb t.lsb t.now).1
        rest).value = 9
      rw [heq]
      simp only [hup, hdn, Bool.false_eq_true, eq_self_iff_true, and_true,
        and_false, if_false] at hrest ⊢
      rw [if_neg (by omega)] at hrest ⊢
      exact ih _ he hst hmx hv hrest
  rintro ⟨ts, hscript, hval⟩
  have h9 := key ts _ rfl rfl rfl rfl hscript
  omega

/-- C5 amended: in velocity mode (`step == 0`) enough accepted
same-direction ticks drive `subvalue` exactly to `max_value` (Up) or 0
(Down), with `value` following by division; in fixed-step mode (`step >
0`) `value` never exceeds `max_value`, Up ticks advance by `step` only
while the whole step fits, so the value converges to `value + step *
⌊(max_value − value)/step⌋` — equal to `max_value` exactly when `step`
divides the gap (e.g. whenever `step = 1`) — and Down ticks symmetrically
converge to `value % step`, which is 0 exactly when `step` divides the
start value. -/
theorem C5_saturation_amended :
    (∀ (z : zyncoder_st) (ts : List Tick), upAccScript z ts = true →
      z.enabled = true → z.step = 0 → z.max_value < 4294967296 →
      z.subvalue ≤ z.max_value → z.max_value - z.subvalue ≤ ts.length →
      ts ≠ [] →
      (applyTicks z ts).subvalue = z.max_value ∧
      (applyTicks z ts).value = z.max_value / ZYNCODER_TICKS_PER_RETENT) ∧
    (∀ (z : zyncoder_st) (ts : List Tick), downAccScript z ts = true →
      z.enabled = true → z.step = 0 → z.max_value < 4294967296 →
      z.subvalue ≤ z.max_value → z.subvalue ≤ ts.length → ts ≠ [] →
      (applyTicks z ts).subvalue = 0 ∧ (applyTicks z ts).value = 0) ∧
    (∀ (z : zyncoder_st) (ts : List Tick), upAccScript z ts = true →
      z.enabled = true → z.step ≠ 0 → z.max_value < 4294967296 →
      z.value ≤ z.max_value → z.max_value - z.value ≤ ts.length →
      (applyTicks z ts).value =
        z.value + z.step * ((z.max_value - z.value) / z.step) ∧
      ((applyTicks z ts).value = z.max_value ↔
        z.step ∣ (z.max_value - z.value))) ∧
    (∀ (z : zyncoder_st) (ts : List Tick), downAccScript z ts = true →
      z.enabled = true → z.step ≠ 0 → z.max_value < 4294967296 →
      z.value ≤ z.max_value → z.value ≤ ts.length →
      (applyTicks z ts).value = z.value % z.step ∧
      ((applyTicks z ts).value = 0 ↔ z.step ∣ z.value)) := by
  refine ⟨?_, ?_, ?_, ?_⟩
  · intro z ts h1 h2 h3 h4 h5 h6 h7
    exact vel_up_saturates z ts h1 h2 h3 h4 h5 h6 h7
  · intro z ts h1 h2 h3 h4 h5 h6 h7
    exact vel_down_saturates z ts h1 h2 h3 h4 h5 h6 h7
  · intro z ts h1 h2 h3 h4 h5 h6
    exact fixed_up_saturates z ts h1 h2 h3 h4 h5 h6
  · intro z ts h1 h2 h3 h4 h5 h6
    exact fixed_down_saturates z ts h1 h2 h3 h4 h5 h6

/-- Witness for C5 amended: a concrete velocity encoder (subvalue 6 of
max 8) saturates to 8 after three accepted Up ticks, and the stuck
fixed-step encoder of the counterexample indeed lands on
`9 + 3 * (1 / 3) = 9`. -/
theorem C5_saturation_amended_witness :
    ((applyTicks { zyncoder0 with enabled := true, step := 0,
                                  value := 1, subvalue := 6, max_value := 8 }
      [⟨1, 0, 2000⟩, ⟨1, 1, 4000⟩, ⟨0, 1, 6000⟩]).subvalue = 8 ∧
     (applyTicks { zyncoder0 with enabled := true, step := 0,
                                   value := 1, subvalue := 6, max_value := 8 }
      [⟨1, 0, 2000⟩, ⟨1, 1, 4000⟩, ⟨0, 1, 6000⟩]).value =
        8 / ZYNCODER_TICKS_PER_RETENT) ∧
    ((applyTicks { zyncoder0 with enabled := true, step := 3,
                                  value := 9, max_value := 10 }
        [⟨1, 0, 5000⟩]).value = 9 + 3 * ((10 - 9) / 3) ∧
     ((applyTicks { zyncoder0 with enabled := true, step := 3,
                                    value := 9, max_value := 10 }
        [⟨1, 0, 5000⟩]).value = 10 ↔ 3 ∣ (10 - 9))) :=
  ⟨C5_saturation_amended.1 _ [⟨1, 0, 2000⟩, ⟨1, 1, 4000⟩, ⟨0, 1, 6000⟩]
     (by decide) (by decide) (by decide) (by decide) (by decide) (by decide)
     (by decide),
   C5_saturation_amended.2.2.1 _ [⟨1, 0, 5000⟩] (by decide) (by decide)
     (by decide) (by decide) (by decide) (by decide)⟩

/-- C1 counterexample: a state reachable by `setup_zyncoder` followed by
one inbound MIDI event violates `value ≤ max_value`, because
`midi_event_zyncoders` (lines 544-554) stores the incoming CC value
without clamping it against the encoder's range: after configuring encoder
0 with `max_value = 10` (fixed-step), `midi_event_zyncoders(0, 7, 20)`
leaves `value = 20 > 10`. -/
theorem C1_counterexample :
    ((midi_event_zyncoders
        (setup_zyncoder (fun _ => zyncoder0) 0 1 2 0 7 none 5 10 1).2
        0 7 20).1 0).enabled = true ∧
    ((midi_event_zyncoders
        (setup_zyncoder (fun _ => zyncoder0) 0 1 2 0 7 none 5 10 1).2
        0 7 20).1 0).max_value = 10 ∧
    get_value_zyncoder
      (midi_event_zyncoders
        (setup_zyncoder (fun _ => zyncoder0) 0 1 2 0 7 none 5 10 1).2
        0 7 20).1 0 = 20 ∧
    ¬ zyn_inv ((midi_event_zyncoders
        (setup_zyncoder (fun _ => zyncoder0) 0 1 2 0 7 none 5 10 1).2
        0 7 20).1 0) := by
  decide

/-- C1 amended: `0 ≤ value ≤ max_value` (with `subvalue ≤ max_value` in
velocity mode) is established by `setup_zyncoder` and preserved by
`update_zyncoder` and `set_value_zyncoder`; `midi_event_zyncoders`
preserves it only when the incoming value is within the encoder's range
(`val * TICKS_PER_RETENT ≤ max_value` in velocity mode, `val ≤ max_value`
in fixed-step mode) — it stores an out-of-range CC value unclamped. -/
theorem C1_bounds_amended :
    (∀ (s : Nat → zyncoder_st) (i pa pb mc mk : Nat) (op : Option Nat)
        (v mv stv j : Nat),
      ZYNCODER_TICKS_PER_RETENT * mv < 4294967296 → zyn_inv (s j) →
      zyn_inv ((setup_zyncoder s i pa pb mc mk op v mv stv).2 j)) ∧
    (∀ (s : Nat → zyncoder_st) (i m l now j : Nat),
      (s j).max_value < 4294967296 → zyn_inv (s j) →
      zyn_inv ((update_zyncoder s i m l now).1 j)) ∧
    (∀ (s : Nat → zyncoder_st) (i v : Nat) (send : Bool) (j : Nat),
      zyn_inv (s j) → zyn_inv ((set_value_zyncoder s i v send).1 j)) ∧
    (∀ (s : Nat → zyncoder_st) (c k v j : Nat), zyn_inv (s j) →
      (if (s j).step = 0 then v * ZYNCODER_TICKS_PER_RETENT else v) ≤
        (s j).max_value →
      zyn_inv ((midi_event_zyncoders s c k v).1 j)) := by
  refine ⟨?_, ?_, ?_, ?_⟩
  · intro s i pa pb mc mk op v mv stv j hmv hinv
    unfold setup_zyncoder
    split_ifs with h
    · exact hinv
    · dsimp only
      unfold updArr
      by_cases hji : j = i
      · rw [if_pos hji]
        exact setup_core_inv (s i) pa pb mc mk op v mv stv hmv
      · rw [if_neg hji]
        exact hinv
  · intro s i m l now j hmax hinv
    unfold update_zyncoder
    split_ifs with h
    · exact hinv
    · dsimp only
      unfold updArr
      by_cases hji : j = i
      · rw [if_pos hji]
        subst hji
        exact update_core_inv (s j) m l now hmax hinv
      · rw [if_neg hji]
        exact hinv
  · intro s i v send j hinv
    by_cases hji : j = i
    · subst hji
      obtain ⟨h1, h2⟩ := hinv
      unfold set_value_zyncoder
      dsimp only
      unfold zyn_inv ZYNCODER_TICKS_PER_RETENT at *
      split_ifs <;>
        first
          | exact ⟨h1, h2⟩
          | (simp only [updArr_self]; try dsimp only
             omega)
    · have hsame : (set_value_zyncoder s i v send).1 j = s j := by
        unfold set_value_zyncoder
        dsimp only
        split_ifs <;> first | rfl | (simp only [updArr_other _ _ _ _ hji])
      rw [hsame]
      exact hinv
  · intro s c k v j hinv hv
    unfold midi_event_zyncoders
    dsimp only
    by_cases hc : j < MAX_NUM_ZYNCODERS ∧ (s j).enabled = true ∧
        (s j).midi_chan = c ∧ (s j).midi_ctrl = k
    · rw [if_pos hc]
      obtain ⟨h1, h2⟩ := hinv
      unfold zyn_inv ZYNCODER_TICKS_PER_RETENT at *
      dsimp only
      split_ifs at hv <;> omega
    · rw [if_neg hc]
      exact hinv

/-- Witness for C1 amended: applying an encoder tick and an in-range
inbound CC to a concrete in-bounds fixed-step encoder keeps the bound. -/
theorem C1_bounds_amended_witness :
    zyn_inv ((update_zyncoder
        (fun _ => { zyncoder0 with enabled := true, step := 1,
                                   value := 5, max_value := 10 })
        0 1 0 5000).1 0) ∧
    zyn_inv ((midi_event_zyncoders
        (fun _ => { zyncoder0 with enabled := true, step := 1,
                                   value := 5, max_value := 10 })
        0 0 7).1 0) :=
  ⟨C1_bounds_amended.2.1 _ 0 1 0 5000 0 (by decide) (by decide),
   C1_bounds_amended.2.2.2 _ 0 0 7 0 (by decide) (by decide)⟩

/-- C3 (the code bug, evaluated at the failing input): `setup_zyncoder`
guards with `i > MAX_NUM_ZYNCODERS` (line 697) instead of `>=`, so at the
out-of-bounds index `i = MAX_NUM_ZYNCODERS` it returns a non-null handle
and writes the out-of-range slot (enabling it), while `MAX_NUM_ZYNCODERS +
1` is rejected and every sibling operation (`setup_zynswitch`,
`setup_zynswitch_midi`, `get_value_zyncoder`, `get_zynswitch_dtus`) uses
`>=` and fails softly with no side effects as the claim demands. -/
theorem C3_setup_out_of_bounds :
    (setup_zyncoder (fun _ => zyncoder0) MAX_NUM_ZYNCODERS 1 2 0 7 none
      5 10 1).1.isSome = true ∧
    ((setup_zyncoder (fun _ => zyncoder0) MAX_NUM_ZYNCODERS 1 2 0 7 none
      5 10 1).2 MAX_NUM_ZYNCODERS).enabled = true ∧
    (setup_zyncoder (fun _ => zyncoder0) (MAX_NUM_ZYNCODERS + 1) 1 2 0 7
      none 5 10 1).1 = none ∧
    ((setup_zyncoder (fun _ => zyncoder0) (MAX_NUM_ZYNCODERS + 1) 1 2 0 7
      none 5 10 1).2 (MAX_NUM_ZYNCODERS + 1)) = zyncoder0 ∧
    (setup_zynswitch (fun _ => zynswitch0) MAX_NUM_ZYNSWITCHES 3).1 =
      none ∧
    ((setup_zynswitch (fun _ => zynswitch0) MAX_NUM_ZYNSWITCHES 3).2
      MAX_NUM_ZYNSWITCHES) = zynswitch0 ∧
    (setup_zynswitch_midi (fun _ => zynswitch0) MAX_NUM_ZYNSWITCHES
      .CTRL_CHANGE 0 1 2).1 = 0 ∧
    ((setup_zynswitch_midi (fun _ => zynswitch0) MAX_NUM_ZYNSWITCHES
      .CTRL_CHANGE 0 1 2).2 MAX_NUM_ZYNSWITCHES) = zynswitch0 ∧
    get_value_zyncoder (fun _ => { zyncoder0 with value := 9 })
      MAX_NUM_ZYNCODERS = 0 ∧
    (get_zynswitch_dtus (fun _ => { zynswitch0 with dtus := 5000 })
      MAX_NUM_ZYNSWITCHES 1000000 99999).1 = 0 ∧
    ((get_zynswitch_dtus (fun _ => { zynswitch0 with dtus := 5000 })
      MAX_NUM_ZYNSWITCHES 1000000 99999).2 MAX_NUM_ZYNSWITCHES) =
      { zynswitch0 with dtus := 5000 } := by
  decide

/-- C6: for an enabled encoder bound to `(c, k)`, `midi_event_zyncoders(c,
k, v)` with `v ≤ max_value` makes `get_value_zyncoder` return exactly `v`
and sets `subvalue = v * TICKS_PER_RETENT`. -/
theorem C6_midi_roundtrip (s : Nat → zyncoder_st) (c k v i : Nat)
    (hi : i < MAX_NUM_ZYNCODERS) (he : (s i).enabled = true)
    (hc : (s i).midi_chan = c) (hk : (s i).midi_ctrl = k)
    (hv8 : v < 256) (hvmax : v ≤ (s i).max_value) :
    get_value_zyncoder (midi_event_zyncoders s c k v).1 i = v ∧
    ((midi_event_zyncoders s c k v).1 i).subvalue =
      v * ZYNCODER_TICKS_PER_RETENT := by
  unfold get_value_zyncoder midi_event_zyncoders
  dsimp only
  rw [if_neg (by omega), if_pos ⟨hi, he, hc, hk⟩]
  exact ⟨rfl, rfl⟩

/-- Witness for C6: a concrete encoder bound to channel 2 controller 7
round-trips the inbound value 64. -/
theorem C6_midi_roundtrip_witness :
    get_value_zyncoder (midi_event_zyncoders
      (fun _ => { zyncoder0 with enabled := true, step := 1,
                                 value := 5, max_value := 100,
                                 midi_chan := 2, midi_ctrl := 7 })
      2 7 64).1 0 = 64 ∧
    ((midi_event_zyncoders
      (fun _ => { zyncoder0 with enabled := true, step := 1,
                                 value := 5, max_value := 100,
                                 midi_chan := 2, midi_ctrl := 7 })
      2 7 64).1 0).subvalue = 64 * ZYNCODER_TICKS_PER_RETENT :=
  C6_midi_roundtrip _ 2 7 64 0 (by decide) (by decide) (by decide)
    (by decide) (by decide) (by decide)

/-- C7: `midi_event_zyncoders` produces no outbound emission at all (its
trace is empty — it never reaches `send_zyncoder` or any MIDI/OSC sink),
and its only state effect is on the `value`/`subvalue` fields of matching
enabled encoders: every other field of every encoder is unchanged, and a
non-matching or disabled encoder is wholly unchanged. -/
theorem C7_midi_no_emission (s : Nat → zyncoder_st) (c k v : Nat) :
    (midi_event_zyncoders s c k v).2 = [] ∧
    (∀ j : Nat,
      ((midi_event_zyncoders s c k v).1 j).enabled = (s j).enabled ∧
      ((midi_event_zyncoders s c k v).1 j).pin_a = (s j).pin_a ∧
      ((midi_event_zyncoders s c k v).1 j).pin_b = (s j).pin_b ∧
      ((midi_event_zyncoders s c k v).1 j).last_encoded =
        (s j).last_encoded ∧
      ((midi_event_zyncoders s c k v).1 j).max_value = (s j).max_value ∧
      ((midi_event_zyncoders s c k v).1 j).step = (s j).step ∧
      ((midi_event_zyncoders s c k v).1 j).dtus = (s j).dtus ∧
      ((midi_event_zyncoders s c k v).1 j).tsus = (s j).tsus ∧
      ((midi_event_zyncoders s c k v).1 j).midi_chan = (s j).midi_chan ∧
      ((midi_event_zyncoders s c k v).1 j).midi_ctrl = (s j).midi_ctrl ∧
      ((midi_event_zyncoders s c k v).1 j).osc_valid = (s j).osc_valid) ∧
    (∀ j : Nat, ¬ (j < MAX_NUM_ZYNCODERS ∧ (s j).enabled = true ∧
        (s j).midi_chan = c ∧ (s j).midi_ctrl = k) →
      (midi_event_zyncoders s c k v).1 j = s j) := by
  refine ⟨rfl, ?_, ?_⟩
  · intro j
    unfold midi_event_zyncoders
    dsimp only
    split_ifs <;> simp
  · intro j hj
    unfold midi_event_zyncoders
    dsimp only
    rw [if_neg hj]

/-- An enabled switch's `status` always mirrors the level just observed,
whether or not it changed. -/
theorem update_zynswitch_core_status (encs : Nat → zyncoder_st)
    (sw : zynswitch_st) (v now : Nat) (he : sw.enabled = true) :
    (update_zynswitch_core encs sw v now).2.1.status = v := by
  unfold update_zynswitch_core
  dsimp only
  split_ifs <;> simp_all

/-- `update_zynswitch` preserves the debounced-duration invariant. -/
theorem update_zynswitch_core_inv (encs : Nat → zyncoder_st)
    (sw : zynswitch_st) (v now : Nat) (h : sw_inv sw) :
    sw_inv (update_zynswitch_core encs sw v now).2.1 := by
  unfold update_zynswitch_core
  dsimp only
  split_ifs <;> first | exact h | (right; dsimp only; omega)

/-- `update_zynswitch` writes a new `dtus` only on a release edge
(`status == 1`) closing a recorded press, and only with a measured
duration of at least 1000 µs. -/
theorem update_zynswitch_core_dtus_writes (encs : Nat → zyncoder_st)
    (sw : zynswitch_st) (v now : Nat)
    (h : (update_zynswitch_core encs sw v now).2.1.dtus ≠ sw.dtus) :
    v = 1 ∧ 0 < sw.tsus ∧
    (update_zynswitch_core encs sw v now).2.1.dtus = dtus32 now sw.tsus ∧
    1000 ≤ (update_zynswitch_core encs sw v now).2.1.dtus := by
  unfold update_zynswitch_core at h ⊢
  dsimp only at h ⊢
  split_ifs at h ⊢ with h1 h2 h3 h4 h5 <;>
    first
      | exact absurd rfl h
      | exact ⟨h3, h4, rfl, by dsimp only; omega⟩

/-- `get_zynswitch_dtus` preserves the invariant at every index. -/
theorem get_zynswitch_dtus_inv (sws : Nat → zynswitch_st) (i L now j : Nat)
    (h : sw_inv (sws j)) : sw_inv ((get_zynswitch_dtus sws i L now).2 j) := by
  unfold get_zynswitch_dtus
  dsimp only
  by_cases hji : j = i
  · subst hji
    split_ifs <;>
      first
        | exact h
        | (simp only [updArr_self]; left; rfl)
        | (simp only [updArr_self]; exact h)
  · split_ifs <;>
      first
        | exact h
        | (simp only [updArr_other _ _ _ _ hji]; exact h)

/-- A pending `dtus` is reported exactly once: the query returns it and
clears the field. -/
theorem get_zynswitch_dtus_pending (sws : Nat → zynswitch_st)
    (i L now : Nat) (hi : i < MAX_NUM_ZYNSWITCHES) (hd : 0 < (sws i).dtus) :
    (get_zynswitch_dtus sws i L now).1 = (sws i).dtus ∧
    ((get_zynswitch_dtus sws i L now).2 i).dtus = 0 := by
  unfold get_zynswitch_dtus
  rw [if_neg (by omega), if_pos hd]
  exact ⟨rfl, by simp only [updArr_self]⟩

/-- `setup_zynswitch` preserves (and at the written slot establishes) the
invariant. -/
theorem setup_zynswitch_inv (sws : Nat → zynswitch_st) (i pin j : Nat)
    (h : sw_inv (sws j)) : sw_inv ((setup_zynswitch sws i pin).2 j) := by
  unfold setup_zynswitch
  dsimp only
  split_ifs
  · exact h
  · by_cases hji : j = i
    · subst hji
      simp only [updArr_self]
      left
      rfl
    · simp only [updArr_other _ _ _ _ hji]
      exact h

/-- Any per-switch property preserved by the step function is preserved at
every index by the early-return scan. -/
theorem scan_preserves (P : zynswitch_st → Prop)
    (f : ScanState → Nat → ScanState × List Emission × Bool)
    (hf : ∀ st i j, P (st.2 j) → P ((f st i).1.2 j)) :
    ∀ (l : List Nat) (st : ScanState) (j : Nat), P (st.2 j) →
      P ((scan_zynswitches f st l).1.2 j) := by
  intro l
  induction l with
  | nil =>
    intro st j h
    exact h
  | cons i rest ih =>
    intro st j h
    unfold scan_zynswitches
    dsimp only
    split_ifs with hstop
    · exact hf st i j h
    · dsimp only
      exact ih (f st i).1 j (hf st i j h)

/-- The UART scan loop body preserves the invariant at every index. -/
theorem uart_switch_step_inv (d : List Nat) (now : Nat) (st : ScanState)
    (i j : Nat) (h : sw_inv (st.2 j)) :
    sw_inv ((uart_switch_step d now st i).1.2 j) := by
  unfold uart_switch_step
  dsimp only
  by_cases hji : j = i
  · subst hji
    split_ifs <;>
      first
        | exact h
        | (simp only [updArr_self]; exact h)
        | (simp only [updArr_self]; right; dsimp only; omega)
  · split_ifs <;>
      first
        | exact h
        | (simp only [updArr_other _ _ _ _ hji]; exact h)

/-- C8: an enabled switch's `status` mirrors the level just observed; the
invariant "`dtus` is 0 or at least 1000 µs" is established by
`setup_zynswitch` and preserved by `update_zynswitch`, the bulk UART scan
and `get_zynswitch_dtus`; a new `dtus` is written only by a release edge
closing a recorded press with measured duration ≥ 1000 µs (a release under
1000 µs is dropped and never sets `dtus`); and a pending `dtus` is
returned exactly once, being cleared by the query that reports it. -/
theorem C8_switch_invariants :
    (∀ (encs : Nat → zyncoder_st) (sw : zynswitch_st) (v now : Nat),
      sw.enabled = true →
      (update_zynswitch_core encs sw v now).2.1.status = v) ∧
    (∀ (encs : Nat → zyncoder_st) (sw : zynswitch_st) (v now : Nat),
      sw_inv sw → sw_inv (update_zynswitch_core encs sw v now).2.1) ∧
    (∀ (encs : Nat → zyncoder_st) (sw : zynswitch_st) (v now : Nat),
      (update_zynswitch_core encs sw v now).2.1.dtus ≠ sw.dtus →
      v = 1 ∧ 0 < sw.tsus ∧
      (update_zynswitch_core encs sw v now).2.1.dtus =
        dtus32 now sw.tsus ∧
      1000 ≤ (update_zynswitch_core encs sw v now).2.1.dtus) ∧
    (∀ (sws : Nat → zynswitch_st) (i pin j : Nat), sw_inv (sws j) →
      sw_inv ((setup_zynswitch sws i pin).2 j)) ∧
    (∀ (sws : Nat → zynswitch_st) (i L now j : Nat), sw_inv (sws j) →
      sw_inv ((get_zynswitch_dtus sws i L now).2 j)) ∧
    (∀ (sws : Nat → zynswitch_st) (i L now : Nat),
      i < MAX_NUM_ZYNSWITCHES → 0 < (sws i).dtus →
      (get_zynswitch_dtus sws i L now).1 = (sws i).dtus ∧
      ((get_zynswitch_dtus sws i L now).2 i).dtus = 0) ∧
    (∀ (encs : Nat → zyncoder_st) (sws : Nat → zynswitch_st)
        (d : List Nat) (now j : Nat), sw_inv (sws j) →
      sw_inv ((update_zynswitches encs sws d now).1.2 j)) := by
  refine ⟨update_zynswitch_core_status, update_zynswitch_core_inv,
    update_zynswitch_core_dtus_writes, setup_zynswitch_inv,
    get_zynswitch_dtus_inv, get_zynswitch_dtus_pending, ?_⟩
  intro encs sws d now j h
  exact scan_preserves sw_inv (uart_switch_step d now)
    (uart_switch_step_inv d now) (List.range MAX_NUM_ZYNSWITCHES)
    (encs, sws) j h

/-- Witness for C8: a concrete release 50 ms after the press stores its
duration, the invariant holds afterwards, and a pending 50000 µs duration
is reported once and cleared. -/
theorem C8_switch_invariants_witness :
    (update_zynswitch_core (fun _ => zyncoder0)
      { zynswitch0 with enabled := true, status := 0, tsus := 1000 }
      1 51000).2.1.status = 1 ∧
    sw_inv (update_zynswitch_core (fun _ => zyncoder0)
      { zynswitch0 with enabled := true, status := 0, tsus := 1000 }
      1 51000).2.1 ∧
    (get_zynswitch_dtus (fun _ => { zynswitch0 with dtus := 50000 })
      2 1000000 99999).1 = 50000 ∧
    ((get_zynswitch_dtus (fun _ => { zynswitch0 with dtus := 50000 })
      2 1000000 99999).2 2).dtus = 0 :=
  ⟨C8_switch_invariants.1 _ _ 1 51000 (by decide),
   C8_switch_invariants.2.1 _ _ 1 51000 (by decide),
   (C8_switch_invariants.2.2.2.2.2.1 _ 2 1000000 99999 (by decide)
     (by decide)).1,
   (C8_switch_invariants.2.2.2.2.2.1 _ 2 1000000 99999 (by decide)
     (by decide)).2⟩

/-- Unfolding equation of the scan on a cons cell. -/
theorem scan_cons (f : ScanState → Nat → ScanState × List Emission × Bool)
    (st : ScanState) (i : Nat) (rest : List Nat) :
    scan_zynswitches f st (i :: rest) =
      (let r := f st i
       if r.2.2 then (r.1, r.2.1, true)
       else
         let r2 := scan_zynswitches f r.1 rest
         (r2.1, r.2.1 ++ r2.2.1, r2.2.2)) := rfl

/-- If the step function stops exactly on `stop` of the current entry and
writes only its own entry, then a scan over `l1 ++ i :: l2` with no stop
in `l1` and a stop at `i` never looks past `i`: it equals the scan over
`l1 ++ [i]`, and every entry outside `l1 ++ [i]` is untouched. -/
theorem scan_stops_at (f : ScanState → Nat → ScanState × List Emission × Bool)
    (stop : zynswitch_st → Bool)
    (hstop : ∀ st k, (f st k).2.2 = stop (st.2 k))
    (hframe : ∀ st k j, j ≠ k → (f st k).1.2 j = st.2 j) :
    ∀ (l1 l2 : List Nat) (st : ScanState) (i : Nat), l1.Nodup →
      (∀ j ∈ l1, stop (st.2 j) = false) → stop (st.2 i) = true →
      i ∉ l1 →
      scan_zynswitches f st (l1 ++ i :: l2) =
        scan_zynswitches f st (l1 ++ [i]) ∧
      ∀ j, j ∉ l1 → j ≠ i →
        (scan_zynswitches f st (l1 ++ i :: l2)).1.2 j = st.2 j := by
  intro l1
  induction l1 with
  | nil =>
    intro l2 st i _ hpre hstopi _
    have hsi : (f st i).2.2 = true := by rw [hstop]; exact hstopi
    constructor
    · rw [List.nil_append, List.nil_append, scan_cons, scan_cons]
      dsimp only
      rw [hsi]
      simp only [eq_self_iff_true, if_true]
    · intro j _ hji
      rw [List.nil_append, scan_cons]
      dsimp only
      rw [hsi]
      simp only [eq_self_iff_true, if_true]
      exact hframe st i j hji
  | cons a rest ih =>
    intro l2 st i hnodup hpre hstopi hnotin
    have hanotin : a ∉ rest := (List.nodup_cons.mp hnodup).1
    have hnodup' : rest.Nodup := (List.nodup_cons.mp hnodup).2
    have hsa : (f st a).2.2 = false := by
      rw [hstop]; exact hpre a (List.mem_cons_self a rest)
    have hia : i ≠ a := fun hh => hnotin (hh ▸ List.mem_cons_self a rest)
    have hpre' : ∀ j ∈ rest, stop (((f st a).1).2 j) = false := by
      intro j hj
      have hja : j ≠ a := fun hh => hanotin (hh ▸ hj)
      rw [hframe st a j hja]
      exact hpre j (List.mem_cons_of_mem a hj)
    have hstopi' : stop (((f st a).1).2 i) = true := by
      rw [hframe st a i hia]; exact hstopi
    have hnotin' : i ∉ rest := fun hh => hnotin (List.mem_cons_of_mem a hh)
    obtain ⟨ihEq, ihFrame⟩ := ih l2 (f st a).1 i hnodup' hpre' hstopi' hnotin'
    constructor
    · rw [List.cons_append, List.cons_append, scan_cons, scan_cons]
      dsimp only
      rw [hsa]
      simp only [Bool.false_eq_true, if_false]
      rw [ihEq]
    · intro j hjmem hji
      have hja : j ≠ a := fun hh => hjmem (hh ▸ List.mem_cons_self a rest)
      rw [List.cons_append, scan_cons]
      dsimp only
      rw [hsa]
      simp only [Bool.false_eq_true, if_false]
      rw [ihFrame j (fun hh => hjmem (List.mem_cons_of_mem a hh)) hji,
        hframe st a j hja]

/-- The UART loop body executes its early `return` exactly on
`uart_stop_cond`. -/
theorem uart_switch_step_stops (d : List Nat) (now : Nat) (st : ScanState)
    (k : Nat) :
    (uart_switch_step d now st k).2.2 = uart_stop_cond (st.2 k) d now := by
  unfold uart_switch_step uart_stop_cond
  dsimp only
  split_ifs <;> simp_all

/-- The UART loop body writes no switch entry but its own. -/
theorem uart_switch_step_frame (d : List Nat) (now : Nat) (st : ScanState)
    (k j : Nat) (h : j ≠ k) :
    (uart_switch_step d now st k).1.2 j = st.2 j := by
  unfold uart_switch_step
  dsimp only
  split_ifs <;> first | rfl | (simp only [updArr_other _ _ _ _ h])

/-- The port-expander polling loop body executes its early `return`
exactly on `exp_stop_cond`. -/
theorem expanded_switch_step_stops (pins : Nat → Nat) (now : Nat)
    (st : ScanState) (k : Nat) :
    (expanded_switch_step pins now st k).2.2 =
      exp_stop_cond (st.2 k) pins now := by
  unfold expanded_switch_step exp_stop_cond
  dsimp only
  split_ifs with hg <;> simp_all <;>
    (intro hen hpin _ _ _
     rcases hg with hh | hh
     · simp [hen] at hh
     · omega)

/-- The port-expander polling loop body writes no switch entry but its
own. -/
theorem expanded_switch_step_frame (pins : Nat → Nat) (now : Nat)
    (st : ScanState) (k j : Nat) (h : j ≠ k) :
    (expanded_switch_step pins now st k).1.2 j = st.2 j := by
  unfold expanded_switch_step
  dsimp only
  split_ifs <;> first | rfl | (simp only [updArr_other _ _ _ _ h])

/-- C10: in both bulk switch-scan paths, a release edge whose press
duration measures under 1000 µs makes the whole scan return at that
switch: the scan equals the scan of indices `0..i` only (so no emission is
produced for any later switch), and every switch with index `j > i` is
left completely untouched. -/
theorem C10_early_return :
    (∀ (encs : Nat → zyncoder_st) (sws : Nat → zynswitch_st) (d : List Nat)
        (now i : Nat), i < MAX_NUM_ZYNSWITCHES →
      uart_stop_cond (sws i) d now = true →
      (∀ j, j < i → uart_stop_cond (sws j) d now = false) →
      update_zynswitches encs sws d now =
        scan_zynswitches (uart_switch_step d now) (encs, sws)
          (List.range (i + 1)) ∧
      ∀ j, i < j → (update_zynswitches encs sws d now).1.2 j = sws j) ∧
    (∀ (encs : Nat → zyncoder_st) (sws : Nat → zynswitch_st)
        (pins : Nat → Nat) (now i : Nat), i < MAX_NUM_ZYNSWITCHES →
      exp_stop_cond (sws i) pins now = true →
      (∀ j, j < i → exp_stop_cond (sws j) pins now = false) →
      update_expanded_zynswitches encs sws pins now =
        scan_zynswitches (expanded_switch_step pins now) (encs, sws)
          (List.range (i + 1)) ∧
      ∀ j, i < j →
        (update_expanded_zynswitches encs sws pins now).1.2 j = sws j) := by
  constructor
  · intro encs sws d now i hi hstopi hpre
    have hsplit : List.range MAX_NUM_ZYNSWITCHES =
        List.range i ++ i :: ((List.range (MAX_NUM_ZYNSWITCHES - (i + 1))).map
          fun x => (i + 1) + x) := by
      have h1 : MAX_NUM_ZYNSWITCHES = (i + 1) + (MAX_NUM_ZYNSWITCHES -
          (i + 1)) := by omega
      conv_lhs => rw [h1, List.range_add]
      rw [List.range_succ, List.append_assoc, List.singleton_append]
    obtain ⟨hEq, hFrame⟩ := scan_stops_at (uart_switch_step d now)
      (fun sw => uart_stop_cond sw d now)
      (fun st k => uart_switch_step_stops d now st k)
      (fun st k j h => uart_switch_step_frame d now st k j h)
      (List.range i)
      ((List.range (MAX_NUM_ZYNSWITCHES - (i + 1))).map fun x => (i + 1) + x)
      (encs, sws) i (List.nodup_range i)
      (by intro j hj; exact hpre j (List.mem_range.mp hj)) hstopi
      (by simp [List.mem_range])
    constructor
    · show scan_zynswitches (uart_switch_step d now) (encs, sws)
        (List.range MAX_NUM_ZYNSWITCHES) = _
      rw [hsplit, hEq, ← List.range_succ]
    · intro j hj
      show (scan_zynswitches (uart_switch_step d now) (encs, sws)
        (List.range MAX_NUM_ZYNSWITCHES)).1.2 j = sws j
      rw [hsplit]
      exact hFrame j (by simp [List.mem_range]; omega) (by omega)
  · intro encs sws pins now i hi hstopi hpre
    have hsplit : List.range MAX_NUM_ZYNSWITCHES =
        List.range i ++ i :: ((List.range (MAX_NUM_ZYNSWITCHES - (i + 1))).map
          fun x => (i + 1) + x) := by
      have h1 : MAX_NUM_ZYNSWITCHES = (i + 1) + (MAX_NUM_ZYNSWITCHES -
          (i + 1)) := by omega
      conv_lhs => rw [h1, List.range_add]
      rw [List.range_succ, List.append_assoc, List.singleton_append]
    obtain ⟨hEq, hFrame⟩ := scan_stops_at (expanded_switch_step pins now)
      (fun sw => exp_stop_cond sw pins now)
      (fun st k => expanded_switch_step_stops pins now st k)
      (fun st k j h => expanded_switch_step_frame pins now st k j h)
      (List.range i)
      ((List.range (MAX_NUM_ZYNSWITCHES - (i + 1))).map fun x => (i + 1) + x)
      (encs, sws) i (List.nodup_range i)
      (by intro j hj; exact hpre j (List.mem_range.mp hj)) hstopi
      (by simp [List.mem_range])
    constructor
    · show scan_zynswitches (expanded_switch_step pins now) (encs, sws)
        (List.range MAX_NUM_ZYNSWITCHES) = _
      rw [hsplit, hEq, ← List.range_succ]
    · intro j hj
      show (scan_zynswitches (expanded_switch_step pins now) (encs, sws)
        (List.range MAX_NUM_ZYNSWITCHES)).1.2 j = sws j
      rw [hsplit]
      exact hFrame j (by simp [List.mem_range]; omega) (by omega)

/-- Witness for C10: switch 0 sees a spurious UART release (press only
100 µs old), so the scan stops there and switch 3 is untouched; same for
the port-expander path with its inverted polarity. -/
theorem C10_early_return_witness :
    uart_stop_cond
      ({ zynswitch0 with enabled := true, status := 1, tsus := 500 })
      [0, 0] 600 = true ∧
    (update_zynswitches (fun _ => zyncoder0)
      (fun _ => { zynswitch0 with enabled := true, status := 1, tsus := 500 })
      [0, 0] 600).1.2 3 =
      { zynswitch0 with enabled := true, status := 1, tsus := 500 } ∧
    (update_expanded_zynswitches (fun _ => zyncoder0)
      (fun _ => { zynswitch0 with enabled := true, pin := 100, status := 0,
                                  tsus := 500 })
      (fun _ => 1) 600).1.2 3 =
      { zynswitch0 with enabled := true, pin := 100, status := 0,
                        tsus := 500 } :=
  ⟨by decide,
   (C10_early_return.1 (fun _ => zyncoder0) _ [0, 0] 600 0 (by decide)
     (by decide) (by decide)).2 3 (by decide),
   (C10_early_return.2 (fun _ => zyncoder0) _ (fun _ => 1) 600 0 (by decide)
     (by decide) (by decide)).2 3 (by decide)⟩

/-- When `checkFraming` reports a valid frame it leaves the buffer alone
and does not flush the serial device. -/
theorem checkFraming_true (s : UartBuf) (a b : Nat)
    (h : (checkFraming s a b).1 = true) :
    checkFraming s a b = (true, s, false) := by
  unfold checkFraming at h ⊢
  split_ifs at h ⊢ <;> simp_all

/-- C9 counterexample: stream the frame `EA FF 00 FB` into a freshly
flushed buffer.  Framing is valid and the payload byte `0xFF` is reserved,
so the frame is rejected — but, contrary to the claim, neither the
circular buffer nor the serial device is flushed: the corrupt branch of
`uart_thread` (line 934) only prints, and `flushBuffer` runs only in the
valid branch (line 923) or on a framing failure with a full buffer
(lines 1029-1033). -/
theorem C9_counterexample :
    (uart_step (uart_step (uart_step (uart_step flushBuffer 0xEA).1
        0xFF).1 0x00).1 0xFB).2.1 = UartOutcome.corruptFrame ∧
    (uart_step (uart_step (uart_step (uart_step flushBuffer 0xEA).1
        0xFF).1 0x00).1 0xFB).2.2 = false ∧
    (uart_step (uart_step (uart_step (uart_step flushBuffer 0xEA).1
        0xFF).1 0x00).1 0xFB).1 ≠ flushBuffer ∧
    (uart_step (uart_step (uart_step (uart_step flushBuffer 0xEA).1
        0xFF).1 0x00).1 0xFB).1.elementsInBuffer = BUFFER_SIZE_BYTES := by
  decide

/-- C9 amended: on a received frame with valid framing whose payload
contains a reserved byte (`0xEA`, `0xFB` or `0xFF`), the frame is rejected
— no `update_zyncoder` / `update_zynswitches` call occurs for it — but
neither the circular byte buffer nor the serial device is flushed in that
iteration: the loop state is exactly the buffer with the byte inserted,
and the stale bytes are only discarded by a later framing failure on a
full buffer. -/
theorem C9_corrupt_frame_amended (s : UartBuf) (b : Nat)
    (hframe : (checkFraming (insertInBuffer s b) START_FRAME_VALUE
        END_FRAME_VALUE).1 = true)
    (hcorrupt : getBufferData (insertInBuffer s b) = none) :
    uart_step s b = (insertInBuffer s b, UartOutcome.corruptFrame, false) := by
  have h2 := checkFraming_true (insertInBuffer s b) START_FRAME_VALUE
    END_FRAME_VALUE hframe
  unfold uart_step
  dsimp only
  rw [h2]
  dsimp only
  rw [hcorrupt]
  simp

/-- Witness for C9 amended: the concrete corrupt frame `EA FF 00 FB`. -/
theorem C9_corrupt_frame_amended_witness :
    uart_step (uart_step (uart_step (uart_step flushBuffer 0xEA).1
        0xFF).1 0x00).1 0xFB =
      (insertInBuffer (uart_step (uart_step (uart_step flushBuffer
        0xEA).1 0xFF).1 0x00).1 0xFB, UartOutcome.corruptFrame, false) :=
  C9_corrupt_frame_amended _ 0xFB (by decide) (by decide)

/-- Witness for C7: on a concrete array the inbound event emits nothing
and leaves a non-matching encoder untouched. -/
theorem C7_midi_no_emission_witness :
    (midi_event_zyncoders (fun _ => zyncoder0) 0 7 64).2 = [] ∧
    (midi_event_zyncoders (fun _ => zyncoder0) 0 7 64).1 1 = zyncoder0 :=
  ⟨(C7_midi_no_emission (fun _ => zyncoder0) 0 7 64).1,
   (C7_midi_no_emission (fun _ => zyncoder0) 0 7 64).2.2 1 (by decide)⟩

end Zyn
